import Mathlib

/-!
# NNfSiX, Plan 9 C port: dense layers, activations, softmax

A shallow embedding of `src/Plan9/p001-Basic-Neuron-3-inputs.c`,
`src/Plan9/p004-Batches-Layers.c` and `src/Plan9/p006-Softmax-Activation.c`.

Modelling conventions

* A C `double` is an element of a linearly ordered field `α` (exact arithmetic,
  no rounding, no infinities or NaN).  The definitions are generic in `α`, so they
  evaluate over `ℚ`; theorems that need the exponential take `α = ℝ`.
* libc `exp`, `sin`, `cos` and `rand` are not part of the repository and are parameters
  of the functions that call them; `rand` is a state-passing function on the state of
  the generator, which `srand` sets.  The answers of libc `malloc` are parameters too.
* A `while` loop takes a bound on its iterations (fuel); theorems that say a function
  returns hold for every fuel above a stated threshold.
* Printing is modelled only where a loop of `main` passes values to `print`: those
  values are returned.
* A C `int` is an `Int`; the sizes and offsets that occur stay far below `2 ^ 31`
  whenever the buffers they index exist, so no wrap-around is modelled.
* A `double *` is a `Ptr`: an allocation together with an offset into it.  Reading or
  writing outside the allocation is the fault `Fault.outOfBounds`, so every function
  that dereferences a pointer returns in `Except Fault`.
* Buffers are values: a function that mutates a buffer in place returns the new
  buffer.  Distinct pointer arguments are taken to point into distinct allocations,
  as they do for layers built by `layer_init`.
-/

namespace NNfSiX

/-- Undefined behaviour of the C program that the model makes observable. -/
inductive Fault where
  | outOfBounds : Fault
  deriving DecidableEq, Repr

/-- A `double *`: the allocation it points into and the offset of the pointed-to
cell from the start of that allocation. -/
structure Ptr (α : Type) where
  buf : List α
  off : Int

namespace Ptr

variable {α : Type}

/-- Pointer to the first cell of a fresh allocation holding `l`. -/
def ofList (l : List α) : Ptr α := ⟨l, 0⟩

/-- Pointer arithmetic `p + k`. -/
def add (p : Ptr α) (k : Int) : Ptr α := ⟨p.buf, p.off + k⟩

/-- The rvalue `p[i]`. -/
def read (p : Ptr α) (i : Int) : Except Fault α :=
  if 0 ≤ p.off + i then
    match p.buf[(p.off + i).toNat]? with
    | some v => .ok v
    | none => .error .outOfBounds
  else .error .outOfBounds

/-- The assignment `p[i] = v`. -/
def write (p : Ptr α) (i : Int) (v : α) : Except Fault (Ptr α) :=
  if 0 ≤ p.off + i ∧ (p.off + i).toNat < p.buf.length then
    .ok ⟨p.buf.set (p.off + i).toNat v, p.off⟩
  else .error .outOfBounds

/-- The cells from the pointed-to one to the end of the allocation: the vector
`p[0], p[1], ...` that may be accessed through `p`. -/
def cells (p : Ptr α) : List α := p.buf.drop p.off.toNat

end Ptr

/-- Iterations `i, i + 1, ...` of a loop body, `count` of them, threading the
loop-carried state and stopping at the first fault. -/
def loopFrom {σ : Type} (body : Int → σ → Except Fault σ) : Nat → Int → σ → Except Fault σ
  | 0, _, s => .ok s
  | k + 1, i, s =>
    match body i s with
    | .ok s' => loopFrom body k (i + 1) s'
    | .error e => .error e

/-- The C loop `for (int i = start; i < stop; i++) body`, whose body changes neither
`i` nor `stop`: it runs `max 0 (stop - start)` iterations. -/
def forLoop {σ : Type} (start stop : Int) (body : Int → σ → Except Fault σ) (s : σ) :
    Except Fault σ :=
  loopFrom body (stop - start).toNat start s

/-- The pointer `nil`: no cell can be accessed through it. -/
def Ptr.nil {α : Type} : Ptr α := ⟨[], 0⟩

/-- The libc call `malloc(sizeof(double) * count)`, not part of the repository.  The
argument `fresh` is what the allocator answers: `none` for `nil`, otherwise the
unspecified initial contents of the new cells.  A negative `count` is a request beyond
any address space and yields `nil`. -/
def mallocDoubles {α : Type} (fresh : Option (Nat → α)) (count : Int) : Option (Ptr α) :=
  if count < 0 then none
  else fresh.map (fun f => Ptr.ofList ((List.range count.toNat).map f))

/-- The state of the generator behind libc `rand` after `k` calls. -/
def drawState {G : Type} (rand : G → Int × G) (g : G) : Nat → G
  | 0 => g
  | k + 1 => (rand (drawState rand g k)).2

/-! ## p001-Basic-Neuron-3-inputs.c -/

namespace P001

variable {α : Type} [LinearOrderedField α]

/-- The array `inputs` of `main`. -/
def inputs : List α := [1.0, 2.0, 3.0]

/-- The array `weights` of `main`. -/
def weights : List α := [3.1, 2.1, 8.7]

/-- The variable `bias` of `main`. -/
def bias : α := 3.0

/-- The value `main` assigns to `output` and prints. -/
def main : Except Fault α := do
  let i0 ← (Ptr.ofList inputs).read 0
  let w0 ← (Ptr.ofList weights).read 0
  let i1 ← (Ptr.ofList inputs).read 1
  let w1 ← (Ptr.ofList weights).read 1
  let i2 ← (Ptr.ofList inputs).read 2
  let w2 ← (Ptr.ofList weights).read 2
  pure (i0 * w0 + i1 * w1 + i2 * w2 + bias)

end P001

/-! ## p004-Batches-Layers.c -/

namespace P004

variable {α : Type} [LinearOrderedField α]

/-- The constant `RAND_MAX` defined by the file. -/
def RAND_MAX : Int := 10

/-- The constant `RAND_HIGH_RANGE`. -/
def RAND_HIGH_RANGE : α := 0.10

/-- The constant `RAND_MIN_RANGE`. -/
def RAND_MIN_RANGE : α := -0.10

/-- The struct `layer_dense_t`. -/
structure layer_dense_t (α : Type) where
  weights : Ptr α
  biases : Ptr α
  output : Ptr α
  input_size : Int
  output_size : Int

/-- The function `dot_product`. -/
def dot_product (input weights bias : Ptr α) (input_size : Int) : Except Fault α := do
  let output ← forLoop 0 input_size (fun i output => do
    let a ← input.read i
    let w ← weights.read i
    pure (output + a * w)) (0 : α)
  let b ← bias.read 0
  pure (output + b)

/-- The function `layer_output`; the loop carries `outputs` and `offset`. -/
def layer_output (input weights bias : Ptr α) (input_size : Int) (outputs : Ptr α)
    (output_size : Int) : Except Fault (Ptr α) := do
  let st ← forLoop 0 output_size (fun i (st : Ptr α × Int) => do
    let v ← dot_product input (weights.add st.2) (bias.add i) input_size
    let outputs ← st.1.write i v
    pure (outputs, st.2 + input_size)) (outputs, 0)
  pure st.1

/-- The function `rand_range`.  The call `rand()` draws from the generator state `g`
through the libc function `rand`, a parameter; on Plan 9, `rand` returns an integer
`x` with `0 ≤ x < 2 ^ 15`, whatever the file defines `RAND_MAX` to be. -/
def rand_range {G : Type} (rand : G → Int × G) (min max : α) (g : G) : α × G :=
  let range := max - min
  let div := (RAND_MAX : α) / range
  let r := rand g
  (min + (r.1 : α) / div, r.2)

/-- The function `forward`; the result is `next_layer` after the call. -/
def forward (previous_layer next_layer : layer_dense_t α) : Except Fault (layer_dense_t α) := do
  let out ← layer_output previous_layer.output next_layer.weights next_layer.biases
    next_layer.input_size next_layer.output next_layer.output_size
  pure { next_layer with output := out }

/-- The constant `INIT_BIASES`. -/
def INIT_BIASES : α := 0.0

/-- The function `layer_init`.  The arguments `fresh_w`, `fresh_b`, `fresh_o` are the
answers of the three `malloc` calls, `layer` is the struct behind the pointer before
the call and `g` the generator state; the result is the struct and the generator state
after the call.  The messages printed on a failed allocation are not modelled. -/
def layer_init {G : Type} (rand : G → Int × G) (fresh_w fresh_b fresh_o : Option (Nat → α))
    (layer : layer_dense_t α) (intput_size output_size : Int) (g : G) :
    Except Fault (layer_dense_t α × G) :=
  let layer := { layer with input_size := intput_size, output_size := output_size }
  match mallocDoubles fresh_w (intput_size * output_size) with
  | none => pure ({ layer with weights := Ptr.nil }, g)
  | some w =>
    let layer := { layer with weights := w }
    match mallocDoubles fresh_b output_size with
    | none => pure ({ layer with biases := Ptr.nil }, g)
    | some b =>
      let layer := { layer with biases := b }
      match mallocDoubles fresh_o output_size with
      | none => pure ({ layer with output := Ptr.nil }, g)
      | some o => do
        let layer := { layer with output := o }
        let biases ← forLoop 0 output_size (fun i (biases : Ptr α) =>
          biases.write i INIT_BIASES) layer.biases
        let st ← forLoop 0 (intput_size * output_size) (fun i (st : Ptr α × G) => do
          let v := rand_range rand RAND_MIN_RANGE RAND_HIGH_RANGE st.2
          let weights ← st.1.write i v.1
          pure (weights, v.2)) (layer.weights, g)
        pure ({ layer with biases := biases, weights := st.1 }, st.2)

/-- The constant `NET_INPUT_LAYER_1_SIZE`. -/
def NET_INPUT_LAYER_1_SIZE : Int := 4

/-- The constant `NET_HIDDEN_LAYER_2_SIZE`. -/
def NET_HIDDEN_LAYER_2_SIZE : Int := 5

/-- The constant `NET_OUTPUT_LAYER_SIZE`. -/
def NET_OUTPUT_LAYER_SIZE : Int := 2

/-- The array `X_input` of `main`, row after row. -/
def X_input : List α :=
  [1.0, 2.0, 3.0, 2.5, 2.0, 5.0, -1.0, 2.0, -1.5, 2.7, 3.3, -0.8]

/-- The body of the batch loop of `main` for the row `i` of the array behind `X_input`:
the three layers after the iteration and the two vectors it prints, `layerX_output`
and `layerY_output`. -/
def main_batch (X_input : Ptr α) (i : Int) (X layer1 layer2 : layer_dense_t α) :
    Except Fault ((layer_dense_t α × layer_dense_t α × layer_dense_t α) × List (List α)) := do
  let X := { X with output := X_input.add (i * NET_INPUT_LAYER_1_SIZE) }
  let layer1 ← forward X layer1
  let layerX_output ← forLoop 0 layer1.output_size (fun j (printed : List α) => do
    let v ← layer1.output.read j
    pure (printed ++ [v])) []
  let layer2 ← forward layer1 layer2
  let layerY_output ← forLoop 0 layer2.output_size (fun j (printed : List α) => do
    let v ← layer2.output.read j
    pure (printed ++ [v])) []
  pure ((X, layer1, layer2), [layerX_output, layerY_output])

end P004

/-! ## p006-Softmax-Activation.c -/

namespace P006

variable {α : Type} [LinearOrderedField α]

/-- The constant `RAND_MAX` defined by the file. -/
def RAND_MAX : Int := 5

/-- The constant `RAND_HIGH_RANGE`. -/
def RAND_HIGH_RANGE : α := 0.10

/-- The constant `RAND_MIN_RANGE`. -/
def RAND_MIN_RANGE : α := -0.10

/-- The struct `layer_dense_t`.  The callback `void (*)(double *)` overwrites the
cell it is given, so it is a function on the value of that cell; the null pointer
is `none`. -/
structure layer_dense_t (α : Type) where
  weights : Ptr α
  biases : Ptr α
  output : Ptr α
  input_size : Int
  output_size : Int
  callback : Option (α → α)

/-- The function `dot_product`. -/
def dot_product (input weights bias : Ptr α) (input_size : Int)
    (callback : Option (α → α)) : Except Fault α := do
  let output ← forLoop 0 input_size (fun i output => do
    let a ← input.read i
    let w ← weights.read i
    pure (output + a * w)) (0 : α)
  let output := match callback with
    | some f => f output
    | none => output
  let b ← bias.read 0
  pure (output + b)

/-- The function `layer_output`; the loop carries `outputs` and `offset`. -/
def layer_output (input weights bias : Ptr α) (input_size : Int) (outputs : Ptr α)
    (output_size : Int) (callback : Option (α → α)) : Except Fault (Ptr α) := do
  let st ← forLoop 0 output_size (fun i (st : Ptr α × Int) => do
    let v ← dot_product input (weights.add st.2) (bias.add i) input_size callback
    let outputs ← st.1.write i v
    pure (outputs, st.2 + input_size)) (outputs, 0)
  pure st.1

/-- The function `rand_range`.  The call `rand()` draws from the generator state `g`
through the libc function `rand`, a parameter; on Plan 9, `rand` returns an integer
`x` with `0 ≤ x < 2 ^ 15`, whatever the file defines `RAND_MAX` to be. -/
def rand_range {G : Type} (rand : G → Int × G) (min max : α) (g : G) : α × G :=
  let range := max - min
  let div := (RAND_MAX : α) / range
  let r := rand g
  (min + (r.1 : α) / div, r.2)

/-- The function `forward`; the result is `next_layer` after the call. -/
def forward (previos_layer next_layer : layer_dense_t α) : Except Fault (layer_dense_t α) := do
  let out ← layer_output previos_layer.output next_layer.weights next_layer.biases
    next_layer.input_size next_layer.output next_layer.output_size next_layer.callback
  pure { next_layer with output := out }

/-- The function `activation_ReLU`. -/
def activation_ReLU (x : α) : α :=
  let x := if x < 0.0 then 0.0 else x
  x

/-- The callback `actiavtion1`, as the new value of the cell it is given. -/
def actiavtion1 (output : α) : α :=
  activation_ReLU output

/-- The function `activation_softmax`; `exp` is the libc exponential.  The initial
value `0.0` of `maxu` is overwritten by `output[0]` before any use.  The second loop
carries the output buffer and `sum`. -/
def activation_softmax (exp : α → α) (output_layer : layer_dense_t α) :
    Except Fault (layer_dense_t α) := do
  let sum : α := 0.0
  let maxu ← output_layer.output.read 0
  let maxu ← forLoop 1 output_layer.output_size (fun i maxu => do
    let v ← output_layer.output.read i
    pure (if v > maxu then v else maxu)) maxu
  let st ← forLoop 0 output_layer.output_size (fun i (st : Ptr α × α) => do
    let v ← st.1.read i
    let out ← st.1.write i (exp (v - maxu))
    let e ← out.read i
    pure (out, st.2 + e)) (output_layer.output, sum)
  let out ← forLoop 0 output_layer.output_size (fun i (out : Ptr α) => do
    let v ← out.read i
    out.write i (v / st.2)) st.1
  pure { output_layer with output := out }

/-- The function `sum_softmax_layer_output`. -/
def sum_softmax_layer_output (output_layer : layer_dense_t α) : Except Fault α :=
  forLoop 0 output_layer.output_size (fun i sum => do
    let v ← output_layer.output.read i
    pure (sum + v)) (0.0 : α)

/-- The constant `INIT_BIASES`. -/
def INIT_BIASES : α := 0.0

/-- The constant `NET_INPUT_LAYER_1_SIZE`. -/
def NET_INPUT_LAYER_1_SIZE : Int := 2

/-- The constant `NET_INPUT_LAYER_2_SIZE`. -/
def NET_INPUT_LAYER_2_SIZE : Int := 3

/-- The constant `NET_OUTPUT_LAYER_SIZE`. -/
def NET_OUTPUT_LAYER_SIZE : Int := 3

/-- The struct `spiral_data_t`. -/
structure spiral_data_t (α : Type) where
  x : Ptr α
  y : Ptr α

/-- The function `layer_init`.  The arguments `fresh_w`, `fresh_b`, `fresh_o` are the
answers of the three `malloc` calls, `layer` is the struct behind the pointer before
the call (`main` has already set its callback) and `g` the generator state; the result
is the struct and the generator state after the call.  The messages printed on a
failed allocation are not modelled. -/
def layer_init {G : Type} (rand : G → Int × G) (fresh_w fresh_b fresh_o : Option (Nat → α))
    (layer : layer_dense_t α) (intput_size output_size : Int) (g : G) :
    Except Fault (layer_dense_t α × G) :=
  let layer := { layer with input_size := intput_size, output_size := output_size }
  match mallocDoubles fresh_w (intput_size * output_size) with
  | none => pure ({ layer with weights := Ptr.nil }, g)
  | some w =>
    let layer := { layer with weights := w }
    match mallocDoubles fresh_b output_size with
    | none => pure ({ layer with biases := Ptr.nil }, g)
    | some b =>
      let layer := { layer with biases := b }
      match mallocDoubles fresh_o output_size with
      | none => pure ({ layer with output := Ptr.nil }, g)
      | some o => do
        let layer := { layer with output := o }
        let biases ← forLoop 0 output_size (fun i (biases : Ptr α) =>
          biases.write i INIT_BIASES) layer.biases
        let st ← forLoop 0 (intput_size * output_size) (fun i (st : Ptr α × G) => do
          let v := rand_range rand RAND_MIN_RANGE RAND_HIGH_RANGE st.2
          let weights ← st.1.write i v.1
          pure (weights, v.2)) (layer.weights, g)
        pure ({ layer with biases := biases, weights := st.1 }, st.2)

/-- The function `uniform_distribution`; the call `rand()` draws from the generator
state `g`. -/
def uniform_distribution {G : Type} (rand : G → Int × G) (rangeLow rangeHigh : α) (g : G) :
    α × G :=
  let sample := rand g
  let rng := (sample.1 : α) / (1.0 + (RAND_MAX : α))
  let range := rangeHigh - rangeLow + 1
  let rng_scaled := (rng * range) + rangeLow
  (rng_scaled, sample.2)

/-- The body of the batch loop of `main` for the row `i`: the three layers after the
iteration and the three vectors it prints, `layer1_output`, `layer2_output` and
`layer2_softmax`. -/
def main_batch (exp : α → α) (X_data : spiral_data_t α) (i : Int)
    (X dense1 dense2 : layer_dense_t α) :
    Except Fault ((layer_dense_t α × layer_dense_t α × layer_dense_t α) × List (List α)) := do
  let X := { X with output := X_data.x.add (i * 2) }
  let dense1 ← forward X dense1
  let layer1_output ← forLoop 0 dense1.output_size (fun j (printed : List α) => do
    let v ← dense1.output.read j
    pure (printed ++ [v])) []
  let dense2 ← forward dense1 dense2
  let layer2_output ← forLoop 0 dense2.output_size (fun j (printed : List α) => do
    let v ← dense2.output.read j
    pure (printed ++ [v])) []
  let dense2 ← activation_softmax exp dense2
  let layer2_softmax ← forLoop 0 dense2.output_size (fun j (printed : List α) => do
    let v ← dense2.output.read j
    pure (printed ++ [v])) []
  pure ((X, dense1, dense2), [layer1_output, layer2_output, layer2_softmax])

end P006

/-! ## Vocabulary of the statements -/

section Vocabulary

variable {α : Type} [LinearOrderedField α]

/-- The sum `x[0] * w[0] + ... + x[n-1] * w[n-1]` of the first `n` products. -/
def weightedSum (x w : List α) (n : Nat) : α :=
  Finset.sum (Finset.range n) (fun k => x.getD k 0 * w.getD k 0)

/-- The value `layer_output` stores in `outputs[i]`: the callback (identity when
null) applied to the weighted sum over row `i` of the weights, plus `bias[i]`. -/
def neuronValue (callback : Option (α → α)) (x w b : List α) (n i : Nat) : α :=
  (callback.getD id) (Finset.sum (Finset.range n) (fun k => x.getD k 0 * w.getD (i * n + k) 0))
    + b.getD i 0

/-- The layer invariant: each pointer of the layer points into its allocation, at
`input_size * output_size` weights, `output_size` biases and `output_size` outputs. -/
def P006.layer_dense_t.WellFormed (l : P006.layer_dense_t α) : Prop :=
  0 ≤ l.weights.off ∧ 0 ≤ l.biases.off ∧ 0 ≤ l.output.off ∧
  (l.weights.cells.length : Int) = l.input_size * l.output_size ∧
  (l.biases.cells.length : Int) = l.output_size ∧
  (l.output.cells.length : Int) = l.output_size

/-- The vector `activation_softmax` computes with shift `m` from the original
vector `x`: each `x[i]` becomes `exp (x[i] - m)` over the sum of all `exp (x[j] - m)`. -/
def softmaxWith (exp : α → α) (m : α) (x : List α) : List α :=
  x.map (fun v => exp (v - m) / (x.map (fun w => exp (w - m))).sum)

/-- The textbook softmax, in the words of the claim it is compared with: each `x[i]`
becomes `exp (x[i])` divided by the sum over `j` of `exp (x[j])`. -/
def textbookSoftmax (exp : α → α) (x : List α) : List α :=
  x.map (fun v => exp v / (x.map exp).sum)

/-- The p004 layer read as a p006 layer whose callback is null. -/
def P004.layer_dense_t.toP006 (l : P004.layer_dense_t α) : P006.layer_dense_t α :=
  { weights := l.weights, biases := l.biases, output := l.output,
    input_size := l.input_size, output_size := l.output_size, callback := none }

/-- A well-formed p006 layer with two inputs and one neuron. -/
def P006.narrowLayer : P006.layer_dense_t ℚ :=
  { weights := Ptr.ofList [1, 1], biases := Ptr.ofList [0], output := Ptr.ofList [0],
    input_size := 2, output_size := 1, callback := none }

/-- A well-formed p006 layer with three outputs. -/
def P006.wideSource : P006.layer_dense_t ℚ :=
  { weights := Ptr.ofList [], biases := Ptr.ofList [0, 0, 0], output := Ptr.ofList [1, 2, 3],
    input_size := 0, output_size := 3, callback := none }

/-- A well-formed p006 layer with one output. -/
def P006.shortSource : P006.layer_dense_t ℚ :=
  { weights := Ptr.ofList [], biases := Ptr.ofList [0], output := Ptr.ofList [1],
    input_size := 0, output_size := 1, callback := none }

/-- A well-formed p006 layer with one input and one neuron. -/
def P006.unitLayer : P006.layer_dense_t ℚ :=
  { weights := Ptr.ofList [2], biases := Ptr.ofList [1], output := Ptr.ofList [0],
    input_size := 1, output_size := 1, callback := none }

/-- The first-layer vector of a batch row: `forward` from the row into `dense1`. -/
def rowLayer1 (row : List α) (dense1 : P006.layer_dense_t α) : List α :=
  (List.range dense1.output_size.toNat).map
    (neuronValue dense1.callback row dense1.weights.cells dense1.biases.cells
      dense1.input_size.toNat)

/-- The second-layer vector of a batch row: `forward` from the first-layer vector into
`dense2`. -/
def rowLayer2 (row : List α) (dense1 dense2 : P006.layer_dense_t α) : List α :=
  (List.range dense2.output_size.toNat).map
    (neuronValue dense2.callback (rowLayer1 row dense1) dense2.weights.cells
      dense2.biases.cells dense2.input_size.toNat)

/-- An input pseudo-layer in the manner of `main`: only `output` is meaningful, and it
points at the row `[1, -1]` inside a longer data buffer. -/
def P006.rowSource : P006.layer_dense_t ℚ :=
  { weights := Ptr.ofList [], biases := Ptr.ofList [], output := ⟨[9, 9, 1, -1], 2⟩,
    input_size := 0, output_size := 0, callback := none }

/-- A well-formed p004 layer with two inputs and one neuron. -/
def P004.narrowLayer : P004.layer_dense_t ℚ :=
  { weights := Ptr.ofList [1, 1], biases := Ptr.ofList [0], output := Ptr.ofList [0],
    input_size := 2, output_size := 1 }

/-- A well-formed p004 layer with one output. -/
def P004.shortSource : P004.layer_dense_t ℚ :=
  { weights := Ptr.ofList [], biases := Ptr.ofList [0], output := Ptr.ofList [1],
    input_size := 0, output_size := 1 }

end Vocabulary

/-! ## The memory model and the loop combinator -/

section Memory

variable {α : Type}

theorem Ptr.cells_ofList (l : List α) : (Ptr.ofList l).cells = l := by
  simp [Ptr.ofList, Ptr.cells]

theorem Ptr.cells_add (p : Ptr α) (h0 : 0 ≤ p.off) (k : Nat) :
    (p.add (k : Int)).cells = p.cells.drop k := by
  have h : (p.off + (k : Int)).toNat = p.off.toNat + k := by omega
  simp only [Ptr.add, Ptr.cells, h, List.drop_drop]

theorem Ptr.add_off (p : Ptr α) (k : Int) : (p.add k).off = p.off + k := rfl

theorem Ptr.read_cells (p : Ptr α) (h0 : 0 ≤ p.off) (j : Nat) :
    p.read (j : Int) =
      match p.cells[j]? with
      | some v => .ok v
      | none => .error .outOfBounds := by
  have h : (p.off + (j : Int)).toNat = p.off.toNat + j := by omega
  have h1 : 0 ≤ p.off + (j : Int) := by omega
  simp only [Ptr.read, Ptr.cells, h, h1, if_true, List.getElem?_drop]

theorem Ptr.read_ok [Zero α] (p : Ptr α) (h0 : 0 ≤ p.off) (j : Nat) (hj : j < p.cells.length) :
    p.read (j : Int) = .ok (p.cells.getD j 0) := by
  rw [Ptr.read_cells p h0 j, List.getD_eq_getElem?_getD, List.getElem?_eq_getElem hj]
  rfl

theorem Ptr.read_error (p : Ptr α) (h0 : 0 ≤ p.off) (j : Nat) (hj : p.cells.length ≤ j) :
    p.read (j : Int) = .error .outOfBounds := by
  rw [Ptr.read_cells p h0 j, List.getElem?_eq_none hj]

theorem Ptr.write_ok (p : Ptr α) (h0 : 0 ≤ p.off) (j : Nat) (hj : j < p.cells.length) (v : α) :
    ∃ q, p.write (j : Int) v = .ok q ∧ q.off = p.off ∧ q.cells = p.cells.set j v := by
  have h : (p.off + (j : Int)).toNat = p.off.toNat + j := by omega
  have h1 : 0 ≤ p.off + (j : Int) := by omega
  have h2 : p.off.toNat + j < p.buf.length := by
    simp only [Ptr.cells, List.length_drop] at hj
    omega
  refine ⟨⟨p.buf.set (p.off.toNat + j) v, p.off⟩, ?_, rfl, ?_⟩
  · simp only [Ptr.write, h, h1, h2, and_self, if_true]
  · simp only [Ptr.cells, List.set_drop]

theorem loopFrom_inv {σ : Type} (body : Int → σ → Except Fault σ) (Inv : Int → σ → Prop) :
    ∀ (k : Nat) (i : Int) (s : σ), Inv i s →
      (∀ j t, i ≤ j → j < i + k → Inv j t → ∃ u, body j t = .ok u ∧ Inv (j + 1) u) →
      ∃ r, loopFrom body k i s = .ok r ∧ Inv (i + k) r
  | 0, i, s, h0, _ => ⟨s, rfl, by simpa using h0⟩
  | k + 1, i, s, h0, hstep => by
    obtain ⟨t, ht, hInv⟩ := hstep i s le_rfl (by omega) h0
    obtain ⟨r, hr, hI⟩ := loopFrom_inv body Inv k (i + 1) t hInv
      (fun j u h1 h2 hu => hstep j u (by omega) (by omega) hu)
    refine ⟨r, ?_, ?_⟩
    · simp only [loopFrom, ht, hr]
    · have e : i + 1 + (k : Int) = i + ((k + 1 : Nat) : Int) := by omega
      rwa [e] at hI

theorem forLoop_inv {σ : Type} (body : Int → σ → Except Fault σ) (Inv : Int → σ → Prop)
    (start stop : Int) (s : σ) (hle : start ≤ stop) (h0 : Inv start s)
    (hstep : ∀ j t, start ≤ j → j < stop → Inv j t → ∃ u, body j t = .ok u ∧ Inv (j + 1) u) :
    ∃ r, forLoop start stop body s = .ok r ∧ Inv stop r := by
  obtain ⟨r, hr, hI⟩ := loopFrom_inv body Inv (stop - start).toNat start s h0
    (fun j t h1 h2 ht => hstep j t h1 (by omega) ht)
  refine ⟨r, hr, ?_⟩
  have e : start + ((stop - start).toNat : Int) = stop := by omega
  rwa [e] at hI

theorem forLoop_empty {σ : Type} (body : Int → σ → Except Fault σ) (start stop : Int) (s : σ)
    (h : stop ≤ start) : forLoop start stop body s = .ok s := by
  have e : (stop - start).toNat = 0 := by omega
  simp only [forLoop, e, loopFrom]

theorem loopFrom_error {σ : Type} (body : Int → σ → Except Fault σ) (Inv : Int → σ → Prop)
    (e : Fault) :
    ∀ (m k : Nat) (i : Int) (s : σ), m < k → Inv i s →
      (∀ j t, i ≤ j → j < i + m → Inv j t → ∃ u, body j t = .ok u ∧ Inv (j + 1) u) →
      (∀ t, Inv (i + m) t → body (i + m) t = .error e) →
      loopFrom body k i s = .error e
  | _, 0, _, _, hm, _, _, _ => absurd hm (Nat.not_lt_zero _)
  | 0, k + 1, i, s, _, h0, _, hfail => by
    have h := hfail s (by simpa using h0)
    simp only [Nat.cast_zero, add_zero] at h
    simp only [loopFrom, h]
  | m + 1, k + 1, i, s, hm, h0, hstep, hfail => by
    obtain ⟨t, ht, hInv⟩ := hstep i s le_rfl (by omega) h0
    have e1 : i + 1 + (m : Int) = i + ((m + 1 : Nat) : Int) := by omega
    have h := loopFrom_error body Inv e m k (i + 1) t (by omega) hInv
      (fun j u h1 h2 hu => hstep j u (by omega) (by omega) hu)
      (fun u hu => by rw [e1] at hu ⊢; exact hfail u hu)
    simp only [loopFrom, ht, h]

end Memory

/-! ## The weighted sum of one neuron -/

section DotProduct

variable {α : Type} [LinearOrderedField α]

theorem dot_loop_ok (input weights : Ptr α) (hi : 0 ≤ input.off) (hw : 0 ≤ weights.off)
    (n : Nat) (hin : n ≤ input.cells.length) (hwn : n ≤ weights.cells.length) :
    forLoop 0 (n : Int) (fun i output => do
      let a ← input.read i
      let w ← weights.read i
      pure (output + a * w)) (0 : α) = .ok (weightedSum input.cells weights.cells n) := by
  obtain ⟨r, hr, -, hI⟩ := forLoop_inv
    (fun i output => do
      let a ← input.read i
      let w ← weights.read i
      pure (output + a * w))
    (fun j (acc : α) => 0 ≤ j ∧ acc = weightedSum input.cells weights.cells j.toNat)
    0 (n : Int) (0 : α) (by omega) ⟨le_rfl, by simp [weightedSum]⟩
    (by
      rintro j acc h0 hn ⟨-, hacc⟩
      lift j to ℕ using h0
      have h1 : j < input.cells.length := by omega
      have h2 : j < weights.cells.length := by omega
      have e1 : ((j : Int) + 1).toNat = j + 1 := by omega
      refine ⟨acc + input.cells.getD j 0 * weights.cells.getD j 0, ?_, by omega, ?_⟩
      · dsimp only
        rw [Ptr.read_ok input hi _ h1, Ptr.read_ok weights hw _ h2]
        rfl
      · rw [e1, hacc]
        simp only [weightedSum, Finset.sum_range_succ, Int.toNat_ofNat])
  rw [hr, hI]
  simp only [Int.toNat_ofNat]

theorem dot_loop_error_input (input weights : Ptr α) (hi : 0 ≤ input.off) (hw : 0 ≤ weights.off)
    (n : Nat) (hin : input.cells.length < n) (hwn : n ≤ weights.cells.length) :
    forLoop 0 (n : Int) (fun i output => do
      let a ← input.read i
      let w ← weights.read i
      pure (output + a * w)) (0 : α) = .error .outOfBounds := by
  have h := loopFrom_error
    (fun i output => do
      let a ← input.read i
      let w ← weights.read i
      pure (output + a * w))
    (fun _ (_ : α) => True) Fault.outOfBounds input.cells.length ((n : Int) - 0).toNat 0 (0 : α)
    (by omega) trivial
    (by
      rintro j acc h0 hn -
      lift j to ℕ using h0
      have h1 : j < input.cells.length := by omega
      have h2 : j < weights.cells.length := by omega
      refine ⟨acc + input.cells.getD j 0 * weights.cells.getD j 0, ?_, trivial⟩
      dsimp only
      rw [Ptr.read_ok input hi _ h1, Ptr.read_ok weights hw _ h2]
      rfl)
    (by
      rintro acc -
      simp only [zero_add]
      rw [Ptr.read_error input hi _ le_rfl]
      rfl)
  exact h

theorem P004.dot_product_value (input weights bias : Ptr α) (hi : 0 ≤ input.off)
    (hw : 0 ≤ weights.off) (hb : 0 ≤ bias.off) (n : Nat) (hin : n ≤ input.cells.length)
    (hwn : n ≤ weights.cells.length) (hbn : 0 < bias.cells.length) :
    P004.dot_product input weights bias (n : Int)
      = .ok (weightedSum input.cells weights.cells n + bias.cells.getD 0 0) := by
  have hb0 := Ptr.read_ok bias hb 0 hbn
  simp only [Nat.cast_zero] at hb0
  simp only [P004.dot_product, dot_loop_ok input weights hi hw n hin hwn, hb0]
  rfl

theorem P006.dot_product_ok (input weights bias : Ptr α) (hi : 0 ≤ input.off)
    (hw : 0 ≤ weights.off) (hb : 0 ≤ bias.off) (n : Nat) (hin : n ≤ input.cells.length)
    (hwn : n ≤ weights.cells.length) (hbn : 0 < bias.cells.length)
    (callback : Option (α → α)) :
    P006.dot_product input weights bias (n : Int) callback
      = .ok ((callback.getD id) (weightedSum input.cells weights.cells n)
          + bias.cells.getD 0 0) := by
  have hb0 := Ptr.read_ok bias hb 0 hbn
  simp only [Nat.cast_zero] at hb0
  simp only [P006.dot_product, dot_loop_ok input weights hi hw n hin hwn, hb0]
  cases callback <;> rfl

theorem P006.dot_product_error (input weights bias : Ptr α) (hi : 0 ≤ input.off)
    (hw : 0 ≤ weights.off) (n : Nat) (hin : input.cells.length < n)
    (hwn : n ≤ weights.cells.length) (callback : Option (α → α)) :
    P006.dot_product input weights bias (n : Int) callback = .error .outOfBounds := by
  simp only [P006.dot_product, dot_loop_error_input input weights hi hw n hin hwn]
  rfl

theorem getD_drop (l : List α) (a k : Nat) : (l.drop a).getD k 0 = l.getD (a + k) 0 := by
  simp only [List.getD_eq_getElem?_getD, List.getElem?_drop]

theorem P006.layer_output_ok (input weights bias outputs : Ptr α) (hi : 0 ≤ input.off)
    (hw : 0 ≤ weights.off) (hb : 0 ≤ bias.off) (ho : 0 ≤ outputs.off) (n m : Nat)
    (hin : n ≤ input.cells.length) (hwn : m * n ≤ weights.cells.length)
    (hbn : m ≤ bias.cells.length) (hon : m ≤ outputs.cells.length)
    (callback : Option (α → α)) :
    ∃ out, P006.layer_output input weights bias (n : Int) outputs (m : Int) callback = .ok out ∧
      out.off = outputs.off ∧ out.cells.length = outputs.cells.length ∧
      ∀ i : Nat, out.cells[i]? =
        if i < m then some (neuronValue callback input.cells weights.cells bias.cells n i)
        else outputs.cells[i]? := by
  obtain ⟨⟨out, offset⟩, hr, -, -, h1, h2, h3⟩ := forLoop_inv
    (fun i (st : Ptr α × Int) => do
      let v ← P006.dot_product input (weights.add st.2) (bias.add i) (n : Int) callback
      let outputs ← st.1.write i v
      pure (outputs, st.2 + (n : Int)))
    (fun j st => 0 ≤ j ∧ st.2 = j * (n : Int) ∧ st.1.off = outputs.off ∧
      st.1.cells.length = outputs.cells.length ∧
      ∀ i : Nat, st.1.cells[i]? =
        if i < j.toNat then some (neuronValue callback input.cells weights.cells bias.cells n i)
        else outputs.cells[i]?)
    0 (m : Int) (outputs, 0) (by omega)
    ⟨le_rfl, by simp, rfl, rfl, by intro i; simp⟩
    (by
      rintro j ⟨out, offset⟩ h0 hm ⟨-, hoff, hoo, hlen, hcells⟩
      lift j to ℕ using h0
      dsimp only at hoff hoo hlen hcells ⊢
      have hjm : j < m := by omega
      have hmul : j * n + n ≤ m * n := by
        have := Nat.mul_le_mul_right n hjm
        rwa [Nat.succ_mul] at this
      have hoffN : offset = ((j * n : Nat) : Int) := by rw [hoff]; push_cast; rfl
      have hwc := Ptr.cells_add weights hw (j * n)
      have hbc := Ptr.cells_add bias hb j
      have hd := P006.dot_product_ok input (weights.add ((j * n : Nat) : Int))
        (bias.add (j : Int)) hi (by rw [Ptr.add_off]; omega) (by rw [Ptr.add_off]; omega) n hin
        (by rw [hwc, List.length_drop]; omega) (by rw [hbc, List.length_drop]; omega) callback
      have hv : (callback.getD id)
            (weightedSum input.cells (weights.add ((j * n : Nat) : Int)).cells n)
            + (bias.add (j : Int)).cells.getD 0 0
          = neuronValue callback input.cells weights.cells bias.cells n j := by
        simp only [hwc, hbc, weightedSum, neuronValue, getD_drop, add_zero]
      rw [hv] at hd
      obtain ⟨q, hq, hqoff, hqcells⟩ := Ptr.write_ok out (by omega) j (by omega)
        (neuronValue callback input.cells weights.cells bias.cells n j)
      refine ⟨(q, offset + (n : Int)), ?_, by omega, ?_, ?_, ?_, ?_⟩
      · rw [hoffN, hd]
        show (out.write (j : Int) _ >>= fun outputs => pure (outputs, _)) = _
        rw [hq]
        rfl
      · show offset + (n : Int) = ((j : Int) + 1) * (n : Int)
        rw [hoff]; ring
      · show q.off = outputs.off
        rw [hqoff, hoo]
      · show q.cells.length = outputs.cells.length
        rw [hqcells, List.length_set, hlen]
      · intro i
        show q.cells[i]? = _
        have e1 : ((j : Int) + 1).toNat = j + 1 := by omega
        rw [hqcells, List.getElem?_set, e1, hcells i]
        simp only [Int.toNat_ofNat]
        by_cases hij : j = i
        · subst hij
          have : j < out.cells.length := by omega
          simp [this]
        · by_cases hlt : i < j
          · have : i < j + 1 := by omega
            simp [hij, hlt, this]
          · have : ¬ i < j + 1 := by omega
            simp [hij, hlt, this])
  refine ⟨out, ?_, h1, h2, ?_⟩
  · simp only [P006.layer_output, hr]
    rfl
  · intro i
    simpa using h3 i

omit [LinearOrderedField α] in
theorem Ptr.add_null (p : Ptr α) : p.add 0 = p := by
  cases p
  simp only [Ptr.add, Int.add_zero]

theorem P006.layer_output_error (input weights bias outputs : Ptr α) (hi : 0 ≤ input.off)
    (hw : 0 ≤ weights.off) (n m : Nat) (hin : input.cells.length < n)
    (hwn : m * n ≤ weights.cells.length) (hm : 0 < m) (callback : Option (α → α)) :
    P006.layer_output input weights bias (n : Int) outputs (m : Int) callback
      = .error .outOfBounds := by
  obtain ⟨k, rfl⟩ : ∃ k, m = k + 1 := ⟨m - 1, by omega⟩
  have hn : n ≤ weights.cells.length := by
    have : 1 * n ≤ (k + 1) * n := Nat.mul_le_mul_right n (by omega)
    omega
  have e : (((k + 1 : Nat) : Int) - 0).toNat = k + 1 := by omega
  have hd := P006.dot_product_error input weights bias hi hw n hin hn callback
  simp only [P006.layer_output, forLoop, e, loopFrom, Ptr.add_null, hd]
  rfl

theorem P006.forward_ok (previous next : P006.layer_dense_t α) (hp : 0 ≤ previous.output.off)
    (hnext : next.WellFormed)
    (hx : next.input_size ≤ (previous.output.cells.length : Int) ∨ next.output_size = 0) :
    ∃ out, P006.forward previous next = .ok { next with output := out } ∧
      out.off = next.output.off ∧ (out.cells.length : Int) = next.output_size ∧
      ∀ i : Nat, (i : Int) < next.output_size →
        out.cells.getD i 0 = neuronValue next.callback previous.output.cells
          next.weights.cells next.biases.cells next.input_size.toNat i := by
  obtain ⟨hw, hb, ho, hwl, hbl, hol⟩ := hnext
  rcases Int.lt_or_le next.input_size 0 with hneg | hnn
  · -- a negative `input_size` forces `output_size = 0`: no iteration runs
    have hz : next.output_size = 0 := by
      by_contra h
      have hpos : 0 < next.output_size := by omega
      have := Int.mul_neg_of_neg_of_pos hneg hpos
      omega
    refine ⟨next.output, ?_, rfl, hol, ?_⟩
    · simp only [P006.forward, P006.layer_output, forLoop_empty _ 0 next.output_size _ (by omega)]
      rfl
    · intro i hi
      omega
  · obtain ⟨n, hn⟩ : ∃ n : Nat, next.input_size = n := ⟨next.input_size.toNat, by omega⟩
    obtain ⟨m, hm⟩ : ∃ m : Nat, next.output_size = m := ⟨next.output_size.toNat, by omega⟩
    rw [hn, hm] at hwl
    rw [hm] at hbl hol
    have hwl2 : m * n ≤ next.weights.cells.length := by
      have : ((next.weights.cells.length : Nat) : Int) = ((n * m : Nat) : Int) := by
        rw [hwl]; push_cast; rfl
      have := Int.ofNat_inj.mp this
      rw [Nat.mul_comm]; omega
    rcases Nat.eq_zero_or_pos m with hm0 | hmpos
    · subst hm0
      refine ⟨next.output, ?_, rfl, by rw [hol, hm], ?_⟩
      · simp only [P006.forward, P006.layer_output,
          forLoop_empty _ 0 next.output_size _ (by omega)]
        rfl
      · intro i hi
        omega
    · have hin : n ≤ previous.output.cells.length := by
        rcases hx with hx | hx
        · omega
        · omega
      obtain ⟨out, hout, hoff, hlen, hcells⟩ := P006.layer_output_ok previous.output
        next.weights next.biases next.output hp hw hb ho n m hin hwl2 (by omega) (by omega)
        next.callback
      refine ⟨out, ?_, hoff, by omega, ?_⟩
      · simp only [P006.forward, hn, hm, hout]
        rfl
      · intro i hi
        have him : i < m := by omega
        rw [List.getD_eq_getElem?_getD, hcells i, if_pos him, hn]
        simp only [Option.getD_some, Int.toNat_ofNat]

end DotProduct

/-! ## The three loops of `activation_softmax` -/

section Softmax

variable {α : Type} [LinearOrderedField α]

theorem zero_literal : (0.0 : α) = 0 := by norm_num

/-- First loop: the scan that starts from `output[0]` returns an element of the vector
that bounds every element. -/
theorem softmax_max_loop (p : Ptr α) (hp : 0 ≤ p.off) (n : Nat) (hn : 1 ≤ n)
    (hlen : p.cells.length = n) :
    ∃ m, forLoop 1 (n : Int) (fun i maxu => do
        let v ← p.read i
        pure (if v > maxu then v else maxu)) (p.cells.getD 0 0) = .ok m ∧
      m ∈ p.cells ∧ ∀ y ∈ p.cells, y ≤ m := by
  have hmem : ∀ i, i < n → p.cells.getD i 0 ∈ p.cells := by
    intro i hi
    rw [List.getD_eq_getElem?_getD, List.getElem?_eq_getElem (by omega)]
    exact List.getElem_mem _
  obtain ⟨m, hm, -, h1, h2⟩ := forLoop_inv
    (fun i maxu => do
      let v ← p.read i
      pure (if v > maxu then v else maxu))
    (fun j (m : α) => 1 ≤ j ∧ m ∈ p.cells ∧ ∀ i, i < j.toNat → p.cells.getD i 0 ≤ m)
    1 (n : Int) (p.cells.getD 0 0) (by omega)
    ⟨le_rfl, hmem 0 (by omega), by
      intro i hi
      have : i = 0 := by simpa using hi
      rw [this]⟩
    (by
      rintro j m h0 hj ⟨-, hm1, hm2⟩
      lift j to ℕ using (by omega)
      have hjn : j < p.cells.length := by omega
      have e1 : ((j : Int) + 1).toNat = j + 1 := by omega
      refine ⟨if p.cells.getD j 0 > m then p.cells.getD j 0 else m, ?_, by omega, ?_, ?_⟩
      · dsimp only
        rw [Ptr.read_ok p hp j hjn]
        rfl
      · split_ifs
        · exact hmem j (by omega)
        · exact hm1
      · intro i hi
        rw [e1] at hi
        simp only [Int.toNat_ofNat] at hm2
        rcases Nat.lt_succ_iff_lt_or_eq.mp hi with h | h
        · have := hm2 i h
          split_ifs with hgt
          · exact le_of_lt (lt_of_le_of_lt this hgt)
          · exact this
        · subst h
          split_ifs with hgt
          · exact le_rfl
          · exact not_lt.mp hgt)
  refine ⟨m, hm, h1, ?_⟩
  intro y hy
  obtain ⟨i, hi, rfl⟩ := List.getElem_of_mem hy
  have := h2 i (by simpa using (by omega : i < n))
  rwa [List.getD_eq_getElem?_getD, List.getElem?_eq_getElem hi] at this

/-- The loop of `sum_softmax_layer_output` adds up the whole vector. -/
theorem sum_loop (p : Ptr α) (hp : 0 ≤ p.off) (n : Nat) (hlen : p.cells.length = n) :
    forLoop 0 (n : Int) (fun i sum => do
        let v ← p.read i
        pure (sum + v)) (0.0 : α) = .ok p.cells.sum := by
  obtain ⟨r, hr, -, h⟩ := forLoop_inv
    (fun i sum => do
      let v ← p.read i
      pure (sum + v))
    (fun j (acc : α) => 0 ≤ j ∧ acc = (p.cells.take j.toNat).sum)
    0 (n : Int) (0.0 : α) (by omega) ⟨le_rfl, by simp [zero_literal]⟩
    (by
      rintro j acc h0 hj ⟨-, hacc⟩
      lift j to ℕ using h0
      have hjn : j < p.cells.length := by omega
      have e1 : ((j : Int) + 1).toNat = j + 1 := by omega
      refine ⟨acc + p.cells.getD j 0, ?_, by omega, ?_⟩
      · dsimp only
        rw [Ptr.read_ok p hp j hjn]
        rfl
      · rw [e1, hacc, List.take_succ, List.sum_append, List.getD_eq_getElem?_getD,
          List.getElem?_eq_getElem hjn]
        simp)
  rw [hr, h]
  simp [← hlen]

omit [LinearOrderedField α] in
theorem ok_bind {β : Type} (a : α) (f : α → Except Fault β) :
    ((Except.ok a : Except Fault α) >>= f) = f a := rfl

omit [LinearOrderedField α] in
/-- One step of an in-place map: cells below `j` already hold `f` of the original
value, the others still hold the original value, and cell `j` is overwritten. -/
theorem set_step (x ys : List α) (f : α → α) (j : Nat) (hj : j < x.length)
    (hlen : ys.length = x.length) (v : α) (hv : x[j]? = some v)
    (hc : ∀ i : Nat, ys[i]? = if i < j then (x[i]?).map f else x[i]?) (i : Nat) :
    (ys.set j (f v))[i]? = if i < j + 1 then (x[i]?).map f else x[i]? := by
  rw [List.getElem?_set, hc i]
  by_cases hij : j = i
  · subst hij
    have h1 : j < ys.length := by omega
    simp [h1, hv]
  · by_cases hlt : i < j
    · have : i < j + 1 := by omega
      simp [hij, hlt, this]
    · have : ¬ i < j + 1 := by omega
      simp [hij, hlt, this]

/-- Second loop: every cell is replaced by `e` of its value and `sum` accumulates the
new values. -/
theorem softmax_exp_loop (e : α → α) (p : Ptr α) (hp : 0 ≤ p.off) (n : Nat)
    (hlen : p.cells.length = n) :
    ∃ out, forLoop 0 (n : Int) (fun i (st : Ptr α × α) => do
        let v ← st.1.read i
        let out ← st.1.write i (e v)
        let w ← out.read i
        pure (out, st.2 + w)) (p, (0.0 : α)) = .ok (out, (p.cells.map e).sum) ∧
      out.off = p.off ∧ out.cells = p.cells.map e := by
  obtain ⟨⟨out, s⟩, hr, -, h1, h2, h3, h4⟩ := forLoop_inv
    (fun i (st : Ptr α × α) => do
      let v ← st.1.read i
      let out ← st.1.write i (e v)
      let w ← out.read i
      pure (out, st.2 + w))
    (fun j st => 0 ≤ j ∧ st.1.off = p.off ∧ st.1.cells.length = p.cells.length ∧
      (∀ i : Nat, st.1.cells[i]? = if i < j.toNat then (p.cells[i]?).map e else p.cells[i]?) ∧
      st.2 = ((p.cells.take j.toNat).map e).sum)
    0 (n : Int) (p, (0.0 : α)) (by omega)
    ⟨le_rfl, rfl, rfl, by intro i; simp, by simp [zero_literal]⟩
    (by
      rintro j ⟨c, acc⟩ h0 hj ⟨-, hoff, hl, hc, hacc⟩
      lift j to ℕ using h0
      dsimp only at hoff hl hc hacc ⊢
      simp only [Int.toNat_ofNat] at hc hacc
      have hjn : j < p.cells.length := by omega
      have e1 : ((j : Int) + 1).toNat = j + 1 := by omega
      have hcj : c.cells.getD j 0 = p.cells[j] := by
        rw [List.getD_eq_getElem?_getD, hc j, if_neg (lt_irrefl j),
          List.getElem?_eq_getElem hjn]
        rfl
      obtain ⟨q, hq, hqoff, hqcells⟩ := Ptr.write_ok c (by omega) j (by omega) (e p.cells[j])
      have hqj : q.cells.getD j 0 = e p.cells[j] := by
        rw [hqcells, List.getD_eq_getElem?_getD,
          List.getElem?_set_self (by omega : j < c.cells.length)]
        rfl
      refine ⟨(q, acc + e p.cells[j]), ?_, by omega, ?_, ?_, ?_, ?_⟩
      · rw [Ptr.read_ok c (by omega) j (by omega), hcj, ok_bind, hq, ok_bind,
          Ptr.read_ok q (by omega) j (by rw [hqcells, List.length_set]; omega), hqj]
        rfl
      · exact hqoff.trans hoff
      · show q.cells.length = p.cells.length
        rw [hqcells, List.length_set, hl]
      · intro i
        show q.cells[i]? = _
        rw [hqcells, e1]
        exact set_step p.cells c.cells e j hjn hl _ (List.getElem?_eq_getElem hjn) hc i
      · show acc + e p.cells[j] = _
        rw [e1, hacc, List.take_succ, List.map_append, List.sum_append,
          List.getElem?_eq_getElem hjn]
        simp)
  have hout : out.cells = p.cells.map e := by
    apply List.ext_getElem?
    intro i
    rw [h3 i, List.getElem?_map]
    simp only [Int.toNat_ofNat]
    split_ifs with hi
    · rfl
    · rw [List.getElem?_eq_none (by omega)]
      rfl
  refine ⟨out, ?_, h1, hout⟩
  dsimp only at h4
  rw [hr, h4]
  simp [← hlen]

/-- Third loop: every cell is divided by `sum`. -/
theorem softmax_div_loop (s : α) (p : Ptr α) (hp : 0 ≤ p.off) (n : Nat)
    (hlen : p.cells.length = n) :
    ∃ out, forLoop 0 (n : Int) (fun i (out : Ptr α) => do
        let v ← out.read i
        out.write i (v / s)) p = .ok out ∧
      out.off = p.off ∧ out.cells = p.cells.map (fun v => v / s) := by
  obtain ⟨out, hr, -, h1, h2, h3⟩ := forLoop_inv
    (fun i (out : Ptr α) => do
      let v ← out.read i
      out.write i (v / s))
    (fun j (c : Ptr α) => 0 ≤ j ∧ c.off = p.off ∧ c.cells.length = p.cells.length ∧
      (∀ i : Nat, c.cells[i]? =
        if i < j.toNat then (p.cells[i]?).map (fun v => v / s) else p.cells[i]?))
    0 (n : Int) p (by omega)
    ⟨le_rfl, rfl, rfl, by intro i; simp⟩
    (by
      rintro j c h0 hj ⟨-, hoff, hl, hc⟩
      lift j to ℕ using h0
      simp only [Int.toNat_ofNat] at hc
      have hjn : j < p.cells.length := by omega
      have e1 : ((j : Int) + 1).toNat = j + 1 := by omega
      have hcj : c.cells.getD j 0 = p.cells[j] := by
        rw [List.getD_eq_getElem?_getD, hc j, if_neg (lt_irrefl j),
          List.getElem?_eq_getElem hjn]
        rfl
      obtain ⟨q, hq, hqoff, hqcells⟩ := Ptr.write_ok c (by omega) j (by omega) (p.cells[j] / s)
      refine ⟨q, ?_, by omega, hqoff.trans hoff, ?_, ?_⟩
      · dsimp only
        rw [Ptr.read_ok c (by omega) j (by omega), hcj, ok_bind, hq]
      · rw [hqcells, List.length_set, hl]
      · intro i
        rw [hqcells, e1]
        exact set_step p.cells c.cells (fun v => v / s) j hjn hl _
          (List.getElem?_eq_getElem hjn) hc i)
  have hout : out.cells = p.cells.map (fun v => v / s) := by
    apply List.ext_getElem?
    intro i
    rw [h3 i, List.getElem?_map]
    simp only [Int.toNat_ofNat]
    split_ifs with hi
    · rfl
    · rw [List.getElem?_eq_none (by omega)]
      rfl
  exact ⟨out, hr, h1, hout⟩

/-- On a non-empty output vector `activation_softmax` succeeds, changes only the
output buffer, and leaves there `softmaxWith exp m` of the original vector, `m` being
an element of the vector that bounds all its elements. -/
theorem P006.activation_softmax_ok (exp : α → α) (l : P006.layer_dense_t α)
    (hp : 0 ≤ l.output.off) (hlen : (l.output.cells.length : Int) = l.output_size)
    (hne : l.output.cells ≠ []) :
    ∃ m out, m ∈ l.output.cells ∧ (∀ y ∈ l.output.cells, y ≤ m) ∧
      P006.activation_softmax exp l = .ok { l with output := out } ∧
      out.off = l.output.off ∧ out.cells = softmaxWith exp m l.output.cells := by
  have hpos : 0 < l.output.cells.length := List.length_pos.mpr hne
  have hread := Ptr.read_ok l.output hp 0 hpos
  simp only [Nat.cast_zero] at hread
  obtain ⟨m, hm, hmem, hmax⟩ := softmax_max_loop l.output hp l.output.cells.length hpos rfl
  obtain ⟨o2, h2, h2off, h2cells⟩ :=
    softmax_exp_loop (fun v => exp (v - m)) l.output hp l.output.cells.length rfl
  obtain ⟨o3, h3, h3off, h3cells⟩ :=
    softmax_div_loop (l.output.cells.map (fun w => exp (w - m))).sum o2 (by omega)
      l.output.cells.length (by rw [h2cells, List.length_map])
  refine ⟨m, o3, hmem, hmax, ?_, h3off.trans h2off, ?_⟩
  · simp only [P006.activation_softmax, ← hlen, hread, ok_bind, hm, h2, h3]
    rfl
  · rw [h3cells, h2cells, List.map_map]
    rfl

/-- The output vector after `activation_softmax`, read by `sum_softmax_layer_output`. -/
theorem P006.sum_softmax_layer_output_ok (l : P006.layer_dense_t α) (hp : 0 ≤ l.output.off)
    (hlen : (l.output.cells.length : Int) = l.output_size) :
    P006.sum_softmax_layer_output l = .ok l.output.cells.sum := by
  simp only [P006.sum_softmax_layer_output, ← hlen]
  exact sum_loop l.output hp l.output.cells.length rfl

omit [LinearOrderedField α] in
theorem getD_map_of_lt [Zero α] (x : List α) (g : α → α) (i : Nat) (hi : i < x.length) :
    (x.map g).getD i 0 = g (x.getD i 0) := by
  simp [List.getD_eq_getElem?_getD, List.getElem?_map, List.getElem?_eq_getElem hi]

theorem sum_map_div (x : List α) (f : α → α) (s : α) :
    (x.map (fun v => f v / s)).sum = (x.map f).sum / s := by
  induction x with
  | nil => simp
  | cons a t ih => simp only [List.map_cons, List.sum_cons, ih, add_div]

/-- The shift found by the scan is determined by the vector: an element that bounds
all elements is the maximum. -/
theorem max_unique (x : List α) (m m' : α) (hm : m ∈ x) (hle : ∀ y ∈ x, y ≤ m)
    (hm' : m' ∈ x) (hle' : ∀ y ∈ x, y ≤ m') : m = m' :=
  le_antisymm (hle' m hm) (hle m' hm')

theorem softmaxWith_shift (exp : α → α) (m c : α) (x : List α) :
    softmaxWith exp (m + c) (x.map (fun v => v + c)) = softmaxWith exp m x := by
  simp only [softmaxWith, List.map_map, Function.comp_def, add_sub_add_right_eq_sub]

theorem exp_sum_pos (x : List ℝ) (m : ℝ) (hne : x ≠ []) :
    0 < (x.map (fun w => Real.exp (w - m))).sum := by
  apply List.sum_pos
  · intro y hy
    obtain ⟨w, -, rfl⟩ := List.mem_map.mp hy
    exact Real.exp_pos _
  · simpa using hne

theorem softmaxWith_sum (x : List ℝ) (m : ℝ) (hne : x ≠ []) :
    (softmaxWith Real.exp m x).sum = 1 := by
  rw [softmaxWith, sum_map_div x (fun v => Real.exp (v - m))]
  exact div_self (exp_sum_pos x m hne).ne'

theorem sum_map_eq_range (x : List α) (f : α → α) :
    (x.map f).sum = Finset.sum (Finset.range x.length) (fun j => f (x.getD j 0)) := by
  induction x using List.reverseRecOn with
  | nil => simp
  | append_singleton t a ih =>
    rw [List.map_append, List.sum_append, List.length_append, List.length_singleton,
      Finset.sum_range_succ, ih]
    congr 1
    · apply Finset.sum_congr rfl
      intro j hj
      have hj2 : j < t.length := Finset.mem_range.mp hj
      simp only [List.getD_eq_getElem?_getD, List.getElem?_append_left hj2]
    · simp [List.getD_eq_getElem?_getD]

theorem one_le_exp_sum (x : List ℝ) (m : ℝ) (hm : m ∈ x) :
    1 ≤ (x.map (fun w => Real.exp (w - m))).sum := by
  have hmem : Real.exp (m - m) ∈ x.map (fun w => Real.exp (w - m)) :=
    List.mem_map.mpr ⟨m, hm, rfl⟩
  have hnn : ∀ y ∈ x.map (fun w => Real.exp (w - m)), 0 ≤ y := by
    intro y hy
    obtain ⟨w, -, rfl⟩ := List.mem_map.mp hy
    exact (Real.exp_pos _).le
  have h := List.single_le_sum hnn _ hmem
  rwa [sub_self, Real.exp_zero] at h

theorem softmaxWith_mem_unit (x : List ℝ) (m : ℝ) (hm : m ∈ x) (y : ℝ)
    (hy : y ∈ softmaxWith Real.exp m x) : 0 < y ∧ y ≤ 1 := by
  have hs := one_le_exp_sum x m hm
  have hpos : 0 < (x.map (fun w => Real.exp (w - m))).sum := by linarith
  obtain ⟨v, hv, rfl⟩ := List.mem_map.mp hy
  refine ⟨div_pos (Real.exp_pos _) hpos, (div_le_one hpos).mpr ?_⟩
  have hnn : ∀ y ∈ x.map (fun w => Real.exp (w - m)), 0 ≤ y := by
    intro y hy
    obtain ⟨w, -, rfl⟩ := List.mem_map.mp hy
    exact (Real.exp_pos _).le
  exact List.single_le_sum hnn _ (List.mem_map.mpr ⟨v, hv, rfl⟩)

theorem softmaxWith_eq_textbook (x : List ℝ) (m : ℝ) :
    softmaxWith Real.exp m x = textbookSoftmax Real.exp x := by
  have hsum : (x.map (fun w => Real.exp (w - m))).sum = (x.map Real.exp).sum / Real.exp m := by
    rw [← sum_map_div x Real.exp (Real.exp m)]
    simp only [Real.exp_sub]
  simp only [softmaxWith, textbookSoftmax, hsum]
  apply List.map_congr_left
  intro v _
  rw [Real.exp_sub, div_div_div_cancel_right₀ (Real.exp_pos m).ne']

end Softmax

/-! ## p004 through p006, dimension mismatch, and the scaling of `rand_range` -/

section Forward

variable {α : Type} [LinearOrderedField α]

theorem P004.layer_output_eq (input weights bias : Ptr α) (n : Int) (outputs : Ptr α) (m : Int) :
    P004.layer_output input weights bias n outputs m
      = P006.layer_output input weights bias n outputs m none := rfl

theorem P004.forward_fault_iff (previous next : P004.layer_dense_t α) (e : Fault) :
    P004.forward previous next = .error e
      ↔ P006.forward previous.toP006 next.toP006 = .error e := by
  simp only [P004.forward, P006.forward, P004.layer_output_eq, P004.layer_dense_t.toP006]
  cases P006.layer_output previous.output next.weights next.biases next.input_size
    next.output next.output_size none <;> simp [bind, Except.bind, pure, Except.pure]

/-- With a well-formed `next`, `forward` faults exactly when the previous output has
fewer than `next.input_size` cells and at least one neuron is computed. -/
theorem P006.forward_error_iff (previous next : P006.layer_dense_t α)
    (hp : 0 ≤ previous.output.off) (hnext : next.WellFormed) :
    P006.forward previous next = .error .outOfBounds ↔
      (previous.output.cells.length : Int) < next.input_size ∧ 0 < next.output_size := by
  constructor
  · intro herr
    by_contra hcon
    have hx : next.input_size ≤ (previous.output.cells.length : Int) ∨ next.output_size = 0 := by
      obtain ⟨-, -, -, -, hbl, -⟩ := hnext
      by_cases h : next.input_size ≤ (previous.output.cells.length : Int)
      · exact Or.inl h
      · right
        have : ¬ 0 < next.output_size := fun h2 => hcon ⟨by omega, h2⟩
        omega
    obtain ⟨out, hout, -⟩ := P006.forward_ok previous next hp hnext hx
    rw [hout] at herr
    cases herr
  · rintro ⟨hlt, hpos⟩
    obtain ⟨hw, -, -, hwl, -, -⟩ := hnext
    obtain ⟨n, hn⟩ : ∃ n : Nat, next.input_size = n := ⟨next.input_size.toNat, by omega⟩
    obtain ⟨m, hm⟩ : ∃ m : Nat, next.output_size = m := ⟨next.output_size.toNat, by omega⟩
    rw [hn, hm] at hwl
    have hwl2 : m * n ≤ next.weights.cells.length := by
      have : ((next.weights.cells.length : Nat) : Int) = ((n * m : Nat) : Int) := by
        rw [hwl]; push_cast; rfl
      have := Int.ofNat_inj.mp this
      rw [Nat.mul_comm]; omega
    have herr := P006.layer_output_error previous.output next.weights next.biases next.output
      hp hw n m (by omega) hwl2 (by omega) next.callback
    simp only [P006.forward, hn, hm, herr]
    rfl

/-- The value `rand_range` returns for a raw sample between `0` and the divisor
constant lies between `min` and `max`. -/
theorem scaled_sample_mem (R r lo hi : α) (hR : 0 < R) (h0 : 0 ≤ r) (h1 : r ≤ R)
    (h : lo < hi) : lo ≤ lo + r / (R / (hi - lo)) ∧ lo + r / (R / (hi - lo)) ≤ hi := by
  have hd : 0 < hi - lo := sub_pos.mpr h
  have hq : 0 < R / (hi - lo) := div_pos hR hd
  constructor
  · have : 0 ≤ r / (R / (hi - lo)) := div_nonneg h0 hq.le
    linarith
  · have : r / (R / (hi - lo)) ≤ hi - lo := by
      rw [div_le_iff₀ hq, mul_div_cancel₀ _ hd.ne']
      exact h1
    linarith

end Forward

/-! ## Construction of a layer -/

section LayerInit

variable {α : Type} [LinearOrderedField α]

omit [LinearOrderedField α] in
theorem Ptr.eq_ofList (q : Ptr α) (h : q.off = 0) : q = Ptr.ofList q.cells := by
  cases q with
  | mk buf off =>
    simp only at h
    subst h
    simp [Ptr.ofList, Ptr.cells]

omit [LinearOrderedField α] in
theorem mallocDoubles_some (f : Nat → α) (count : Int) (h : 0 ≤ count) :
    mallocDoubles (some f) count = some (Ptr.ofList ((List.range count.toNat).map f)) := by
  simp only [mallocDoubles, not_lt.mpr h, if_false, Option.map_some']

omit [LinearOrderedField α] in
/-- One step of a fill: cells below `j` already hold their final value, cell `j` gets
its own. -/
theorem fill_step (orig ys : List α) (val : Nat → α) (j : Nat) (hj : j < ys.length)
    (hc : ∀ i : Nat, ys[i]? = if i < j then some (val i) else orig[i]?) (i : Nat) :
    (ys.set j (val j))[i]? = if i < j + 1 then some (val i) else orig[i]? := by
  rw [List.getElem?_set, hc i]
  by_cases hij : j = i
  · subst hij
    simp [hj]
  · by_cases hlt : i < j
    · have : i < j + 1 := by omega
      simp [hij, hlt, this]
    · have : ¬ i < j + 1 := by omega
      simp [hij, hlt, this]

omit [LinearOrderedField α] in
theorem filled_eq (orig ys : List α) (val : Nat → α) (n : Nat) (hlen : ys.length = n)
    (hc : ∀ i : Nat, ys[i]? = if i < n then some (val i) else orig[i]?) :
    ys = (List.range n).map val := by
  apply List.ext_getElem?
  intro i
  rw [hc i, List.getElem?_map]
  by_cases hi : i < n
  · simp [hi, List.getElem?_range hi]
  · have h1 : (List.range n)[i]? = none := List.getElem?_eq_none (by simp; omega)
    have h2 : orig[i]? = none := by
      have := hc i
      rw [if_neg hi] at this
      rw [← this]
      exact List.getElem?_eq_none (by omega)
    simp [hi, h1, h2]

omit [LinearOrderedField α] in
/-- The loop that stores one constant in every cell. -/
theorem const_fill_loop (p : Ptr α) (hp : 0 ≤ p.off) (n : Nat) (hlen : p.cells.length = n)
    (v : α) :
    ∃ q, forLoop 0 (n : Int) (fun i (b : Ptr α) => b.write i v) p = .ok q ∧
      q.off = p.off ∧ q.cells = List.replicate n v := by
  obtain ⟨q, hr, -, h1, h2, h3⟩ := forLoop_inv
    (fun i (b : Ptr α) => b.write i v)
    (fun j (b : Ptr α) => 0 ≤ j ∧ b.off = p.off ∧ b.cells.length = n ∧
      ∀ i : Nat, b.cells[i]? = if i < j.toNat then some v else p.cells[i]?)
    0 (n : Int) p (by omega) ⟨le_rfl, rfl, hlen, by intro i; simp⟩
    (by
      rintro j b h0 hj ⟨-, hoff, hl, hc⟩
      lift j to ℕ using h0
      simp only [Int.toNat_ofNat] at hc
      have e1 : ((j : Int) + 1).toNat = j + 1 := by omega
      obtain ⟨q, hq, hqoff, hqcells⟩ := Ptr.write_ok b (by omega) j (by omega) v
      refine ⟨q, hq, by omega, hqoff.trans hoff, ?_, ?_⟩
      · rw [hqcells, List.length_set, hl]
      · intro i
        rw [hqcells, e1]
        exact fill_step p.cells b.cells (fun _ => v) j (by omega) hc i)
  refine ⟨q, hr, h1, ?_⟩
  simp only [Int.toNat_ofNat] at h3
  rw [filled_eq p.cells q.cells (fun _ => v) n h2 h3]
  exact List.ext_getElem? (fun i => by
    by_cases hi : i < n
    · simp [hi, List.getElem?_range hi, List.getElem?_replicate]
    · simp [hi, List.getElem?_replicate])

omit [LinearOrderedField α] in
/-- The loop that stores in cell `k` the value the sampler `f` computes from the `k`-th
draw of the generator. -/
theorem sampled_fill_loop {G : Type} (rand : G → Int × G) (f : G → α × G)
    (hf : ∀ g, (f g).2 = (rand g).2) (p : Ptr α) (hp : 0 ≤ p.off) (n : Nat)
    (hlen : p.cells.length = n) (g : G) :
    ∃ q, forLoop 0 (n : Int) (fun i (st : Ptr α × G) => do
          let v := f st.2
          let w ← st.1.write i v.1
          pure (w, v.2)) (p, g) = .ok (q, drawState rand g n) ∧
      q.off = p.off ∧ q.cells = (List.range n).map (fun k => (f (drawState rand g k)).1) := by
  obtain ⟨⟨q, g'⟩, hr, -, h1, h2, h3, h4⟩ := forLoop_inv
    (fun i (st : Ptr α × G) => do
      let v := f st.2
      let w ← st.1.write i v.1
      pure (w, v.2))
    (fun j (st : Ptr α × G) => 0 ≤ j ∧ st.1.off = p.off ∧ st.1.cells.length = n ∧
      (∀ i : Nat, st.1.cells[i]? =
        if i < j.toNat then some ((f (drawState rand g i)).1) else p.cells[i]?) ∧
      st.2 = drawState rand g j.toNat)
    0 (n : Int) (p, g) (by omega) ⟨le_rfl, rfl, hlen, by intro i; simp, rfl⟩
    (by
      rintro j ⟨b, gj⟩ h0 hj ⟨-, hoff, hl, hc, hg⟩
      lift j to ℕ using h0
      dsimp only at hoff hl hc hg
      simp only [Int.toNat_ofNat] at hc hg
      have e1 : ((j : Int) + 1).toNat = j + 1 := by omega
      obtain ⟨q, hq, hqoff, hqcells⟩ := Ptr.write_ok b (by omega) j (by omega) (f gj).1
      refine ⟨(q, (f gj).2), ?_, by omega, hqoff.trans hoff, ?_, ?_, ?_⟩
      · show (b.write (j : Int) (f gj).1 >>= fun w => pure (w, (f gj).2)) = _
        rw [hq]
        rfl
      · show q.cells.length = n
        rw [hqcells, List.length_set, hl]
      · intro i
        show q.cells[i]? = _
        rw [hqcells, e1]
        have := fill_step p.cells b.cells (fun k => (f (drawState rand g k)).1) j (by omega) hc i
        simpa only [hg] using this
      · show (f gj).2 = drawState rand g ((j : Int) + 1).toNat
        rw [e1, hf, hg]
        rfl)
  dsimp only at h1 h2 h3 h4
  simp only [Int.toNat_ofNat] at h3 h4
  refine ⟨q, ?_, h1, filled_eq p.cells q.cells _ n h2 h3⟩
  rw [hr, h4]

/-- With non-negative sizes and three successful allocations, p006 `layer_init` returns
the layer described here, whatever the fresh cells and the struct held before. -/
theorem P006.layer_init_ok {G : Type} (rand : G → Int × G) (fw fb fo : Nat → α)
    (layer : P006.layer_dense_t α) (n m : Nat) (g : G) :
    P006.layer_init rand (some fw) (some fb) (some fo) layer (n : Int) (m : Int) g =
      .ok ({ weights := Ptr.ofList ((List.range (n * m)).map (fun k =>
               (P006.rand_range rand P006.RAND_MIN_RANGE P006.RAND_HIGH_RANGE
                 (drawState rand g k)).1)),
             biases := Ptr.ofList (List.replicate m P006.INIT_BIASES),
             output := Ptr.ofList ((List.range m).map fo),
             input_size := n, output_size := m, callback := layer.callback },
           drawState rand g (n * m)) := by
  have hcount : ((n : Int) * (m : Int)) = ((n * m : Nat) : Int) := by push_cast; rfl
  obtain ⟨qb, hqb, hqboff, hqbcells⟩ := const_fill_loop (Ptr.ofList ((List.range m).map fb))
    le_rfl m (by simp [Ptr.cells_ofList]) (P006.INIT_BIASES : α)
  obtain ⟨qw, hqw, hqwoff, hqwcells⟩ := sampled_fill_loop rand
    (fun g => P006.rand_range rand (P006.RAND_MIN_RANGE : α) P006.RAND_HIGH_RANGE g)
    (fun _ => rfl)
    (Ptr.ofList ((List.range (n * m)).map fw)) le_rfl (n * m) (by simp [Ptr.cells_ofList]) g
  have eb : qb = Ptr.ofList (List.replicate m P006.INIT_BIASES) := by
    rw [Ptr.eq_ofList qb hqboff, hqbcells]
  have ew : qw = Ptr.ofList ((List.range (n * m)).map (fun k =>
      (P006.rand_range rand P006.RAND_MIN_RANGE P006.RAND_HIGH_RANGE (drawState rand g k)).1)) := by
    rw [Ptr.eq_ofList qw hqwoff, hqwcells]
  subst eb ew
  simp only [P006.layer_init, hcount, mallocDoubles_some _ _ (Int.natCast_nonneg _),
    Int.toNat_ofNat, hqb, hqw, ok_bind]
  rfl

/-- With non-negative sizes and three successful allocations, p004 `layer_init` returns
the layer described here, whatever the fresh cells and the struct held before. -/
theorem P004.layer_init_ok_p004 {G : Type} (rand : G → Int × G) (fw fb fo : Nat → α)
    (layer : P004.layer_dense_t α) (n m : Nat) (g : G) :
    P004.layer_init rand (some fw) (some fb) (some fo) layer (n : Int) (m : Int) g =
      .ok ({ weights := Ptr.ofList ((List.range (n * m)).map (fun k =>
               (P004.rand_range rand P004.RAND_MIN_RANGE P004.RAND_HIGH_RANGE
                 (drawState rand g k)).1)),
             biases := Ptr.ofList (List.replicate m P004.INIT_BIASES),
             output := Ptr.ofList ((List.range m).map fo),
             input_size := n, output_size := m },
           drawState rand g (n * m)) := by
  have hcount : ((n : Int) * (m : Int)) = ((n * m : Nat) : Int) := by push_cast; rfl
  obtain ⟨qb, hqb, hqboff, hqbcells⟩ := const_fill_loop (Ptr.ofList ((List.range m).map fb))
    le_rfl m (by simp [Ptr.cells_ofList]) (P004.INIT_BIASES : α)
  obtain ⟨qw, hqw, hqwoff, hqwcells⟩ := sampled_fill_loop rand
    (fun g => P004.rand_range rand (P004.RAND_MIN_RANGE : α) P004.RAND_HIGH_RANGE g)
    (fun _ => rfl)
    (Ptr.ofList ((List.range (n * m)).map fw)) le_rfl (n * m) (by simp [Ptr.cells_ofList]) g
  have eb : qb = Ptr.ofList (List.replicate m P004.INIT_BIASES) := by
    rw [Ptr.eq_ofList qb hqboff, hqbcells]
  have ew : qw = Ptr.ofList ((List.range (n * m)).map (fun k =>
      (P004.rand_range rand P004.RAND_MIN_RANGE P004.RAND_HIGH_RANGE (drawState rand g k)).1)) := by
    rw [Ptr.eq_ofList qw hqwoff, hqwcells]
  subst eb ew
  simp only [P004.layer_init, hcount, mallocDoubles_some _ _ (Int.natCast_nonneg _),
    Int.toNat_ofNat, hqb, hqw, ok_bind]
  rfl

/-- What `uniform_distribution` does guarantee for a raw sample between `0` and
`RAND_MAX`: a value from `rangeLow` up to, but excluding, `rangeHigh + 1`. -/
theorem P006.uniform_distribution_range {G : Type} (rand : G → Int × G) (lo hi : α) (g : G)
    (h0 : 0 ≤ (rand g).1) (h1 : (rand g).1 ≤ P006.RAND_MAX) (h : lo ≤ hi) :
    lo ≤ (P006.uniform_distribution rand lo hi g).1 ∧
      (P006.uniform_distribution rand lo hi g).1 < hi + 1 := by
  have hr0 : (0 : α) ≤ ((rand g).1 : α) := by exact_mod_cast h0
  have hr1 : ((rand g).1 : α) ≤ 5 := by
    have : ((rand g).1 : α) ≤ ((5 : Int) : α) := by exact_mod_cast h1
    simpa using this
  have hrange : (0 : α) < hi - lo + 1 := by linarith
  have e : (P006.uniform_distribution rand lo hi g).1
      = ((rand g).1 : α) / 6 * (hi - lo + 1) + lo := by
    simp only [P006.uniform_distribution, P006.RAND_MAX]
    norm_num
  rw [e]
  constructor
  · have : 0 ≤ ((rand g).1 : α) / 6 * (hi - lo + 1) :=
      mul_nonneg (div_nonneg hr0 (by norm_num)) hrange.le
    linarith
  · have h6 : ((rand g).1 : α) / 6 < 1 := by
      rw [div_lt_one (by norm_num)]
      linarith
    have : ((rand g).1 : α) / 6 * (hi - lo + 1) < 1 * (hi - lo + 1) :=
      mul_lt_mul_of_pos_right h6 hrange
    linarith

end LayerInit

/-! ## Frame properties and the batch loop -/

section Batch

variable {α : Type} [LinearOrderedField α]

theorem ext_of_getD (a b : List α) (hlen : a.length = b.length)
    (h : ∀ i, i < a.length → a.getD i 0 = b.getD i 0) : a = b := by
  apply List.ext_getElem hlen
  intro i h1 h2
  have := h i h1
  simpa only [List.getD_eq_getElem?_getD, List.getElem?_eq_getElem h1,
    List.getElem?_eq_getElem h2, Option.getD_some] using this

/-- The output vector `forward` computes, as a list: it depends on the previous output,
the weights, the biases, the sizes and the callback, and on nothing else. -/
theorem P006.forward_cells (previous next : P006.layer_dense_t α)
    (hp : 0 ≤ previous.output.off) (hnext : next.WellFormed)
    (hx : next.input_size ≤ (previous.output.cells.length : Int) ∨ next.output_size = 0) :
    ∃ out, P006.forward previous next = .ok { next with output := out } ∧
      out.off = next.output.off ∧
      out.cells = (List.range next.output_size.toNat).map
        (neuronValue next.callback previous.output.cells next.weights.cells
          next.biases.cells next.input_size.toNat) := by
  obtain ⟨out, h1, h2, h3, h4⟩ := P006.forward_ok previous next hp hnext hx
  refine ⟨out, h1, h2, ?_⟩
  have hl : out.cells.length = next.output_size.toNat := by omega
  apply ext_of_getD
  · rw [hl, List.length_map, List.length_range]
  · intro i hi
    have hi2 : i < next.output_size.toNat := by omega
    rw [h4 i (by omega)]
    simp only [List.getD_eq_getElem?_getD, List.getElem?_map, List.getElem?_range hi2,
      Option.map_some', Option.getD_some]

/-- Whenever `forward` returns, the layer it returns is `next` with another output
buffer: no other field changes. -/
theorem P006.forward_frame (previous next r : P006.layer_dense_t α)
    (h : P006.forward previous next = .ok r) :
    r.weights = next.weights ∧ r.biases = next.biases ∧ r.input_size = next.input_size ∧
      r.output_size = next.output_size ∧ r.callback = next.callback := by
  simp only [P006.forward] at h
  cases hlo : P006.layer_output previous.output next.weights next.biases next.input_size
      next.output next.output_size next.callback with
  | error e =>
    rw [hlo] at h
    cases h
  | ok out =>
    rw [hlo, ok_bind] at h
    cases h
    exact ⟨rfl, rfl, rfl, rfl, rfl⟩

/-- The printing loop of `main` passes the cells of the output buffer, in order. -/
theorem print_loop (p : Ptr α) (hp : 0 ≤ p.off) (n : Nat) (hlen : p.cells.length = n) :
    forLoop 0 (n : Int) (fun j (printed : List α) => do
        let v ← p.read j
        pure (printed ++ [v])) [] = .ok p.cells := by
  obtain ⟨r, hr, -, h⟩ := forLoop_inv
    (fun j (printed : List α) => do
      let v ← p.read j
      pure (printed ++ [v]))
    (fun j (acc : List α) => 0 ≤ j ∧ acc = p.cells.take j.toNat)
    0 (n : Int) [] (by omega) ⟨le_rfl, by simp⟩
    (by
      rintro j acc h0 hj ⟨-, hacc⟩
      lift j to ℕ using h0
      have hjn : j < p.cells.length := by omega
      have e1 : ((j : Int) + 1).toNat = j + 1 := by omega
      refine ⟨acc ++ [p.cells.getD j 0], ?_, by omega, ?_⟩
      · dsimp only
        rw [Ptr.read_ok p hp j hjn]
        rfl
      · rw [e1, hacc, List.take_succ, List.getD_eq_getElem?_getD,
          List.getElem?_eq_getElem hjn]
        simp)
  rw [hr, h]
  simp [← hlen]

/-- Whenever `activation_softmax` returns, the layer it returns is the given layer with
another output buffer: no other field changes. -/
theorem P006.activation_softmax_frame (exp : α → α) (l r : P006.layer_dense_t α)
    (h : P006.activation_softmax exp l = .ok r) :
    r.weights = l.weights ∧ r.biases = l.biases ∧ r.input_size = l.input_size ∧
      r.output_size = l.output_size ∧ r.callback = l.callback := by
  simp only [P006.activation_softmax, bind, Except.bind, pure, Except.pure] at h
  repeat' split at h
  all_goals first
    | (cases h; exact ⟨rfl, rfl, rfl, rfl, rfl⟩)
    | cases h

/-- One iteration of the batch loop of `main` succeeds on well-formed layers and prints
the two layer vectors of the row and the softmax of the second. -/
theorem P006.main_batch_ok (exp : α → α) (X_data : P006.spiral_data_t α) (i : Int)
    (X dense1 dense2 : P006.layer_dense_t α) (hrow : 0 ≤ (X_data.x.add (i * 2)).off)
    (hin : dense1.input_size ≤ ((X_data.x.add (i * 2)).cells.length : Int))
    (h1 : dense1.WellFormed) (h2 : dense2.WellFormed)
    (hchain : dense2.input_size = dense1.output_size) (hpos : 0 < dense2.output_size) :
    ∃ o₁ o₃ m, m ∈ rowLayer2 (X_data.x.add (i * 2)).cells dense1 dense2 ∧
      (∀ y ∈ rowLayer2 (X_data.x.add (i * 2)).cells dense1 dense2, y ≤ m) ∧
      P006.main_batch exp X_data i X dense1 dense2
        = .ok (({ X with output := X_data.x.add (i * 2) }, { dense1 with output := o₁ },
                { dense2 with output := o₃ }),
               [rowLayer1 (X_data.x.add (i * 2)).cells dense1,
                rowLayer2 (X_data.x.add (i * 2)).cells dense1 dense2,
                softmaxWith exp m (rowLayer2 (X_data.x.add (i * 2)).cells dense1 dense2)]) ∧
      o₁.cells = rowLayer1 (X_data.x.add (i * 2)).cells dense1 ∧
      o₃.cells = softmaxWith exp m (rowLayer2 (X_data.x.add (i * 2)).cells dense1 dense2) ∧
      o₁.off = dense1.output.off ∧ o₃.off = dense2.output.off := by
  obtain ⟨o₁, hf1, ho1, hc1⟩ := P006.forward_cells
    { X with output := X_data.x.add (i * 2) } dense1 hrow h1 (Or.inl hin)
  have hw1 := h1
  obtain ⟨-, -, hoff1, -, -, hlen1⟩ := hw1
  have hw2 := h2
  obtain ⟨-, -, hoff2, -, -, hlen2⟩ := hw2
  have hl1 : (o₁.cells.length : Int) = dense1.output_size := by
    rw [hc1, List.length_map, List.length_range]; omega
  have hp1 := print_loop o₁ (by omega) o₁.cells.length rfl
  rw [hl1] at hp1
  obtain ⟨o₂, hf2, ho2, hc2⟩ := P006.forward_cells { dense1 with output := o₁ } dense2
    (by show 0 ≤ o₁.off; omega) h2
    (Or.inl (by show dense2.input_size ≤ (o₁.cells.length : Int); omega))
  have hl2 : (o₂.cells.length : Int) = dense2.output_size := by
    rw [hc2, List.length_map, List.length_range]; omega
  have hp2 := print_loop o₂ (by omega) o₂.cells.length rfl
  rw [hl2] at hp2
  obtain ⟨m, o₃, hm, hle, hsm, ho3, hc3⟩ := P006.activation_softmax_ok exp
    { dense2 with output := o₂ } (by show 0 ≤ o₂.off; omega) hl2
    (by
      intro hnil
      have : o₂.cells.length = 0 := by rw [hnil]; rfl
      omega)
  dsimp only at hm hle ho3 hc3
  have hl3 : (o₃.cells.length : Int) = dense2.output_size := by
    rw [hc3, softmaxWith, List.length_map]
    exact hl2
  have hp3 := print_loop o₃ (by omega) o₃.cells.length rfl
  rw [hl3] at hp3
  have e2 : o₂.cells = rowLayer2 (X_data.x.add (i * 2)).cells dense1 dense2 := by
    rw [hc2, rowLayer2, rowLayer1, ← hc1]
  have e1 : o₁.cells = rowLayer1 (X_data.x.add (i * 2)).cells dense1 := hc1
  refine ⟨o₁, o₃, m, e2 ▸ hm, e2 ▸ hle, ?_, e1, e2 ▸ hc3, ho1, by omega⟩
  simp only [P006.main_batch, hf1, ok_bind, hp1, hf2, hp2, hsm, hp3]
  rw [← e1, ← e2, ← hc3]
  rfl

/-- The output vector p004 `forward` computes, as a list. -/
theorem P004.forward_cells_p004 (previous next : P004.layer_dense_t α)
    (hp : 0 ≤ previous.output.off) (hnext : next.toP006.WellFormed)
    (hx : next.input_size ≤ (previous.output.cells.length : Int) ∨ next.output_size = 0) :
    ∃ out, P004.forward previous next = .ok { next with output := out } ∧
      out.off = next.output.off ∧
      out.cells = rowLayer1 previous.output.cells next.toP006 := by
  obtain ⟨out, hf, hoff, hcells⟩ := P006.forward_cells previous.toP006 next.toP006 hp hnext hx
  refine ⟨out, ?_, hoff, hcells⟩
  simp only [P006.forward, P004.layer_dense_t.toP006] at hf
  simp only [P004.forward, P004.layer_output_eq]
  cases hlo : P006.layer_output previous.output next.weights next.biases next.input_size
      next.output next.output_size none with
  | error e =>
    rw [hlo] at hf
    cases hf
  | ok o =>
    rw [hlo, ok_bind] at hf
    cases hf
    rfl

/-- One iteration of the batch loop of p004 `main` succeeds on well-formed layers and
prints the two layer vectors of the row. -/
theorem P004.main_batch_ok_p004 (X_input : Ptr α) (i : Int) (X layer1 layer2 : P004.layer_dense_t α)
    (hrow : 0 ≤ (X_input.add (i * P004.NET_INPUT_LAYER_1_SIZE)).off)
    (hin : layer1.input_size
      ≤ ((X_input.add (i * P004.NET_INPUT_LAYER_1_SIZE)).cells.length : Int))
    (h1 : layer1.toP006.WellFormed) (h2 : layer2.toP006.WellFormed)
    (hchain : layer2.input_size = layer1.output_size) :
    ∃ r, P004.main_batch X_input i X layer1 layer2
      = .ok (r, [rowLayer1 (X_input.add (i * P004.NET_INPUT_LAYER_1_SIZE)).cells layer1.toP006,
                 rowLayer2 (X_input.add (i * P004.NET_INPUT_LAYER_1_SIZE)).cells layer1.toP006
                   layer2.toP006]) := by
  obtain ⟨o₁, hf1, ho1, hc1⟩ := P004.forward_cells_p004
    { X with output := X_input.add (i * P004.NET_INPUT_LAYER_1_SIZE) } layer1 hrow h1
    (Or.inl hin)
  have hw1 := h1
  obtain ⟨-, -, hoff1, -, -, hlen1⟩ := hw1
  have hw2 := h2
  obtain ⟨-, -, hoff2, -, -, hlen2⟩ := hw2
  have hoff1' : 0 ≤ layer1.output.off := hoff1
  have hoff2' : 0 ≤ layer2.output.off := hoff2
  have hl1 : (o₁.cells.length : Int) = layer1.output_size := by
    rw [hc1, rowLayer1, List.length_map, List.length_range]
    show ((layer1.output_size.toNat : Nat) : Int) = layer1.output_size
    have : (layer1.output.cells.length : Int) = layer1.output_size := hlen1
    omega
  have hp1 := print_loop o₁ (by omega) o₁.cells.length rfl
  rw [hl1] at hp1
  obtain ⟨o₂, hf2, ho2, hc2⟩ := P004.forward_cells_p004 { layer1 with output := o₁ } layer2
    (by show 0 ≤ o₁.off; omega) h2
    (Or.inl (by show layer2.input_size ≤ (o₁.cells.length : Int); omega))
  have hl2 : (o₂.cells.length : Int) = layer2.output_size := by
    rw [hc2, rowLayer1, List.length_map, List.length_range]
    show ((layer2.output_size.toNat : Nat) : Int) = layer2.output_size
    have : (layer2.output.cells.length : Int) = layer2.output_size := hlen2
    omega
  have hp2 := print_loop o₂ (by omega) o₂.cells.length rfl
  rw [hl2] at hp2
  refine ⟨({ X with output := X_input.add (i * P004.NET_INPUT_LAYER_1_SIZE) },
    { layer1 with output := o₁ }, { layer2 with output := o₂ }), ?_⟩
  simp only [P004.main_batch, hf1, ok_bind, hp1, hf2, hp2]
  have e2 : o₂.cells = rowLayer2 (X_input.add (i * P004.NET_INPUT_LAYER_1_SIZE)).cells
      layer1.toP006 layer2.toP006 := by
    rw [hc2, rowLayer2, rowLayer1]
    show _ = (List.range layer2.output_size.toNat).map
      (neuronValue none (rowLayer1 _ layer1.toP006) layer2.weights.cells layer2.biases.cells
        layer2.input_size.toNat)
    rw [← hc1]
    rfl
  rw [← hc1, ← e2]
  rfl

end Batch

/-! ## The spiral generator -/

section Spiral

variable {α : Type} [LinearOrderedField α]

end Spiral

/-! ## Claims -/

section Claims

variable {α : Type} [LinearOrderedField α]

/-- C1: for a previous-layer output vector `x` of length `next.input_size` and a
well-formed layer `next`, `forward` succeeds and sets every `next.output[i]`,
`i < output_size`, to `f (sum over k < input_size of x[k] * weights[i*input_size + k])
+ biases[i]`, with `f` the callback, the identity when the callback is null; nothing
but the output buffer of `next` changes. -/
theorem P006.forward_spec (previous next : P006.layer_dense_t α)
    (hp : 0 ≤ previous.output.off) (hnext : next.WellFormed)
    (hx : (previous.output.cells.length : Int) = next.input_size) :
    ∃ out, P006.forward previous next = .ok { next with output := out } ∧
      (out.cells.length : Int) = next.output_size ∧
      ∀ i : Nat, (i : Int) < next.output_size →
        out.cells.getD i 0
          = (next.callback.getD id)
              (Finset.sum (Finset.range next.input_size.toNat) (fun k =>
                previous.output.cells.getD k 0
                  * next.weights.cells.getD (i * next.input_size.toNat + k) 0))
            + next.biases.cells.getD i 0 := by
  obtain ⟨out, h1, -, h2, h3⟩ := P006.forward_ok previous next hp hnext (Or.inl (by omega))
  exact ⟨out, h1, h2, h3⟩

/-- Witness for C1: the row `[1, -1]` of a longer data buffer fed to a layer with two
inputs and one neuron. -/
theorem P006.forward_spec_witness :
    ∃ out, P006.forward P006.rowSource P006.narrowLayer
        = .ok { P006.narrowLayer with output := out } ∧
      (out.cells.length : Int) = P006.narrowLayer.output_size ∧
      ∀ i : Nat, (i : Int) < P006.narrowLayer.output_size →
        out.cells.getD i 0
          = (P006.narrowLayer.callback.getD id)
              (Finset.sum (Finset.range P006.narrowLayer.input_size.toNat) (fun k =>
                P006.rowSource.output.cells.getD k 0
                  * P006.narrowLayer.weights.cells.getD
                      (i * P006.narrowLayer.input_size.toNat + k) 0))
            + P006.narrowLayer.biases.cells.getD i 0 :=
  P006.forward_spec P006.rowSource P006.narrowLayer (by simp [P006.rowSource])
    (by simp [P006.layer_dense_t.WellFormed, P006.narrowLayer, Ptr.cells, Ptr.ofList])
    (by simp [P006.rowSource, P006.narrowLayer, Ptr.cells])

/-- C2: for input and weight vectors of length `n` and a bias `b`, the activation-free
`dot_product` of p004 returns the sum of the `n` products plus `b`; for inputs
`[1,2,3]`, weights `[3.1,2.1,8.7]` and bias `3.0` that is `36.4`, which is also the
value the hand-unrolled neuron of p001 computes. -/
theorem P004.dot_product_spec (input weights : List α) (b : α) (n : Nat)
    (hi : input.length = n) (hw : weights.length = n) :
    P004.dot_product (Ptr.ofList input) (Ptr.ofList weights) (Ptr.ofList [b]) (n : Int)
        = .ok (Finset.sum (Finset.range n) (fun i => input.getD i 0 * weights.getD i 0) + b)
      ∧ P004.dot_product (Ptr.ofList [1.0, 2.0, 3.0]) (Ptr.ofList [3.1, 2.1, 8.7])
          (Ptr.ofList [3.0]) 3 = .ok (36.4 : α)
      ∧ P001.main = .ok (36.4 : α) := by
  have key : ∀ (x w : List α) (c : α) (m : Nat), x.length = m → w.length = m →
      P004.dot_product (Ptr.ofList x) (Ptr.ofList w) (Ptr.ofList [c]) (m : Int)
        = .ok (Finset.sum (Finset.range m) (fun i => x.getD i 0 * w.getD i 0) + c) := by
    intro x w c m hx hw
    have h := P004.dot_product_value (Ptr.ofList x) (Ptr.ofList w) (Ptr.ofList [c])
      le_rfl le_rfl le_rfl m (by simp [Ptr.cells_ofList, hx]) (by simp [Ptr.cells_ofList, hw])
      (by simp [Ptr.cells_ofList])
    simpa only [Ptr.cells_ofList, weightedSum, List.getD_cons_zero] using h
  refine ⟨key input weights b n hi hw, ?_, ?_⟩
  · have h := key [1.0, 2.0, 3.0] [3.1, 2.1, 8.7] (3.0 : α) 3 rfl rfl
    rw [show ((3 : Nat) : Int) = 3 from rfl] at h
    rw [h]
    congr 1
    simp [Finset.sum_range_succ]
    norm_num
  · simp only [P001.main, P001.inputs, P001.weights, P001.bias, Ptr.ofList, Ptr.read]
    simp [bind, Except.bind, pure, Except.pure]
    norm_num

/-- Witness for C2 on the rationals: inputs `[1,2,3]`, weights `[3.1,2.1,8.7]`, bias `3`. -/
theorem P004.dot_product_spec_witness :
    P004.dot_product (Ptr.ofList [1, 2, 3]) (Ptr.ofList [(31 : ℚ) / 10, 21 / 10, 87 / 10])
        (Ptr.ofList [3]) 3
      = .ok (Finset.sum (Finset.range 3)
          (fun i => ([1, 2, 3] : List ℚ).getD i 0
            * ([(31 : ℚ) / 10, 21 / 10, 87 / 10] : List ℚ).getD i 0) + 3) :=
  (P004.dot_product_spec [1, 2, 3] [(31 : ℚ) / 10, 21 / 10, 87 / 10] 3 3 rfl rfl).1

/-- C3: for a layer whose output vector is a non-empty real vector, after
`activation_softmax` the value `sum_softmax_layer_output` returns, the sum of the
output vector, is `1`. -/
theorem P006.softmax_sums_to_one (l : P006.layer_dense_t ℝ) (hp : 0 ≤ l.output.off)
    (hlen : (l.output.cells.length : Int) = l.output_size) (hne : 1 ≤ l.output.cells.length) :
    ∃ r, P006.activation_softmax Real.exp l = .ok r ∧
      P006.sum_softmax_layer_output r = .ok 1 := by
  have hx : l.output.cells ≠ [] := List.length_pos.mp hne
  obtain ⟨m, out, -, -, hrun, hoff, hcells⟩ := P006.activation_softmax_ok Real.exp l hp hlen hx
  refine ⟨{ l with output := out }, hrun, ?_⟩
  have hlen2 : (out.cells.length : Int) = l.output_size := by
    rw [hcells, softmaxWith, List.length_map, hlen]
  rw [P006.sum_softmax_layer_output_ok { l with output := out } (by show 0 ≤ out.off; omega)
    hlen2]
  show Except.ok out.cells.sum = Except.ok 1
  rw [hcells, softmaxWith_sum _ m hx]

/-- Witness for C3: the output vector `[1, 3, 2]`. -/
theorem P006.softmax_sums_to_one_witness :
    ∃ r, P006.activation_softmax Real.exp
        { weights := Ptr.ofList [], biases := Ptr.ofList [], output := Ptr.ofList [1, 3, 2],
          input_size := 0, output_size := 3, callback := none } = .ok r ∧
      P006.sum_softmax_layer_output r = .ok 1 :=
  P006.softmax_sums_to_one _ le_rfl (by simp [Ptr.cells, Ptr.ofList])
    (by simp [Ptr.cells, Ptr.ofList])

/-- C4: on a non-empty output vector `x`, `activation_softmax` replaces each
`output[i]` by `exp (x[i] - m) / s`, where `m` is the maximum element of `x` and `s` is
the sum over all `j` of `exp (x[j] - m)`. -/
theorem P006.activation_softmax_spec (l : P006.layer_dense_t ℝ) (hp : 0 ≤ l.output.off)
    (hlen : (l.output.cells.length : Int) = l.output_size) (hne : l.output.cells ≠ []) :
    ∃ m out, m ∈ l.output.cells ∧ (∀ y ∈ l.output.cells, y ≤ m) ∧
      P006.activation_softmax Real.exp l = .ok { l with output := out } ∧
      out.cells = l.output.cells.map (fun v =>
        Real.exp (v - m) / (l.output.cells.map (fun w => Real.exp (w - m))).sum) := by
  obtain ⟨m, out, h1, h2, h3, -, h4⟩ := P006.activation_softmax_ok Real.exp l hp hlen hne
  exact ⟨m, out, h1, h2, h3, h4⟩

/-- Witness for C4: the output vector `[1, 3, 2]`. -/
theorem P006.activation_softmax_spec_witness :
    ∃ m out, m ∈ ([1, 3, 2] : List ℝ) ∧ (∀ y ∈ ([1, 3, 2] : List ℝ), y ≤ m) ∧
      P006.activation_softmax Real.exp
        { weights := Ptr.ofList [], biases := Ptr.ofList [], output := Ptr.ofList [1, 3, 2],
          input_size := 0, output_size := 3, callback := none }
        = .ok { weights := Ptr.ofList [], biases := Ptr.ofList [], output := out,
                input_size := 0, output_size := 3, callback := none } ∧
      out.cells = ([1, 3, 2] : List ℝ).map (fun v =>
        Real.exp (v - m) / (([1, 3, 2] : List ℝ).map (fun w => Real.exp (w - m))).sum) :=
  P006.activation_softmax_spec
    { weights := Ptr.ofList [], biases := Ptr.ofList [], output := Ptr.ofList [1, 3, 2],
      input_size := 0, output_size := 3, callback := none }
    le_rfl (by simp [Ptr.cells, Ptr.ofList]) (by simp [Ptr.cells, Ptr.ofList])

/-- C5: shift invariance.  If the output vector of `l₂` is that of `l₁` with a scalar
`c` added to every element, `activation_softmax` leaves the same output vector in
both layers. -/
theorem P006.softmax_shift_invariant (l₁ l₂ : P006.layer_dense_t ℝ) (c : ℝ)
    (hp₁ : 0 ≤ l₁.output.off) (hp₂ : 0 ≤ l₂.output.off)
    (hlen : (l₁.output.cells.length : Int) = l₁.output_size)
    (hne : l₁.output.cells ≠ []) (hsize : l₂.output_size = l₁.output_size)
    (hshift : l₂.output.cells = l₁.output.cells.map (fun v => v + c)) :
    ∃ o₁ o₂, P006.activation_softmax Real.exp l₁ = .ok { l₁ with output := o₁ } ∧
      P006.activation_softmax Real.exp l₂ = .ok { l₂ with output := o₂ } ∧
      o₂.cells = o₁.cells := by
  obtain ⟨m₁, o₁, hm₁, hle₁, hrun₁, -, hc₁⟩ :=
    P006.activation_softmax_ok Real.exp l₁ hp₁ hlen hne
  have hlen₂ : (l₂.output.cells.length : Int) = l₂.output_size := by
    rw [hshift, List.length_map, hlen, hsize]
  have hne₂ : l₂.output.cells ≠ [] := by
    rw [hshift]
    simpa using hne
  obtain ⟨m₂, o₂, hm₂, hle₂, hrun₂, -, hc₂⟩ :=
    P006.activation_softmax_ok Real.exp l₂ hp₂ hlen₂ hne₂
  have hmax : m₂ = m₁ + c := by
    apply max_unique l₂.output.cells m₂ (m₁ + c) hm₂ hle₂
    · rw [hshift]
      exact List.mem_map.mpr ⟨m₁, hm₁, rfl⟩
    · intro y hy
      rw [hshift] at hy
      obtain ⟨a, ha, rfl⟩ := List.mem_map.mp hy
      exact add_le_add_right (hle₁ a ha) c
  refine ⟨o₁, o₂, hrun₁, hrun₂, ?_⟩
  rw [hc₁, hc₂, hmax, hshift, softmaxWith_shift]

/-- Witness for C5: the vector `[1, 3, 2]` and the same vector shifted by `10`. -/
theorem P006.softmax_shift_invariant_witness :
    ∃ o₁ o₂,
      P006.activation_softmax Real.exp
        { weights := Ptr.ofList [], biases := Ptr.ofList [], output := Ptr.ofList [1, 3, 2],
          input_size := 0, output_size := 3, callback := none }
        = .ok { weights := Ptr.ofList [], biases := Ptr.ofList [], output := o₁,
                input_size := 0, output_size := 3, callback := none } ∧
      P006.activation_softmax Real.exp
        { weights := Ptr.ofList [], biases := Ptr.ofList [],
          output := Ptr.ofList [1 + 10, 3 + 10, 2 + 10],
          input_size := 0, output_size := 3, callback := none }
        = .ok { weights := Ptr.ofList [], biases := Ptr.ofList [], output := o₂,
                input_size := 0, output_size := 3, callback := none } ∧
      o₂.cells = o₁.cells :=
  P006.softmax_shift_invariant
    { weights := Ptr.ofList [], biases := Ptr.ofList [], output := Ptr.ofList [1, 3, 2],
      input_size := 0, output_size := 3, callback := none }
    { weights := Ptr.ofList [], biases := Ptr.ofList [],
      output := Ptr.ofList [1 + 10, 3 + 10, 2 + 10],
      input_size := 0, output_size := 3, callback := none }
    10 le_rfl le_rfl (by simp [Ptr.cells, Ptr.ofList]) (by simp [Ptr.cells, Ptr.ofList]) rfl
    (by simp [Ptr.cells, Ptr.ofList])

/-- C6: `activation_softmax` preserves the relative order of the original values: with
`x` the original output vector and `y` the result, `x[i] < x[j]` iff `y[i] < y[j]`, and
`x[i] = x[j]` iff `y[i] = y[j]`. -/
theorem P006.softmax_order_preserving (l : P006.layer_dense_t ℝ) (hp : 0 ≤ l.output.off)
    (hlen : (l.output.cells.length : Int) = l.output_size) (hne : l.output.cells ≠ []) :
    ∃ out, P006.activation_softmax Real.exp l = .ok { l with output := out } ∧
      ∀ i j : Nat, i < l.output.cells.length → j < l.output.cells.length →
        (l.output.cells.getD i 0 < l.output.cells.getD j 0
          ↔ out.cells.getD i 0 < out.cells.getD j 0) ∧
        (l.output.cells.getD i 0 = l.output.cells.getD j 0
          ↔ out.cells.getD i 0 = out.cells.getD j 0) := by
  obtain ⟨m, out, -, -, hrun, -, hcells⟩ := P006.activation_softmax_ok Real.exp l hp hlen hne
  refine ⟨out, hrun, ?_⟩
  intro i j hi hj
  have hs := exp_sum_pos l.output.cells m hne
  rw [hcells, softmaxWith, getD_map_of_lt _ _ i hi, getD_map_of_lt _ _ j hj]
  constructor
  · rw [div_lt_div_iff_of_pos_right hs, Real.exp_lt_exp, sub_lt_sub_iff_right]
  · rw [div_left_inj' hs.ne', Real.exp_eq_exp, sub_left_inj]

/-- Witness for C6: the output vector `[1, 3, 2]`. -/
theorem P006.softmax_order_preserving_witness :
    ∃ out, P006.activation_softmax Real.exp
        { weights := Ptr.ofList [], biases := Ptr.ofList [], output := Ptr.ofList [1, 3, 2],
          input_size := 0, output_size := 3, callback := none }
        = .ok { weights := Ptr.ofList [], biases := Ptr.ofList [], output := out,
                input_size := 0, output_size := 3, callback := none } ∧
      ∀ i j : Nat, i < 3 → j < 3 →
        (([1, 3, 2] : List ℝ).getD i 0 < ([1, 3, 2] : List ℝ).getD j 0
          ↔ out.cells.getD i 0 < out.cells.getD j 0) ∧
        (([1, 3, 2] : List ℝ).getD i 0 = ([1, 3, 2] : List ℝ).getD j 0
          ↔ out.cells.getD i 0 = out.cells.getD j 0) :=
  P006.softmax_order_preserving
    { weights := Ptr.ofList [], biases := Ptr.ofList [], output := Ptr.ofList [1, 3, 2],
      input_size := 0, output_size := 3, callback := none }
    le_rfl (by simp [Ptr.cells, Ptr.ofList]) (by simp [Ptr.cells, Ptr.ofList])

/-- C7: `activation_ReLU` is `max 0 x`: it returns `0` for `x < 0` and `x` for
`0 ≤ x`; the callback `actiavtion1` overwrites the cell it is given with that value. -/
theorem P006.activation_ReLU_spec (x : α) :
    P006.activation_ReLU x = max 0 x ∧
      (x < 0 → P006.activation_ReLU x = 0) ∧
      (0 ≤ x → P006.activation_ReLU x = x) ∧
      P006.actiavtion1 x = max 0 x := by
  have h : P006.activation_ReLU x = max 0 x := by
    simp only [P006.activation_ReLU, zero_literal]
    split_ifs with hx
    · exact (max_eq_left hx.le).symm
    · exact (max_eq_right (not_lt.mp hx)).symm
  refine ⟨h, fun hx => ?_, fun hx => ?_, h⟩
  · rw [h, max_eq_left hx.le]
  · rw [h, max_eq_right hx]

/-- Witness for C7: a negative and a non-negative rational. -/
theorem P006.activation_ReLU_spec_witness :
    P006.activation_ReLU (-2 : ℚ) = 0 ∧ P006.activation_ReLU (3 : ℚ) = 3 :=
  ⟨(P006.activation_ReLU_spec (-2 : ℚ)).2.1 (by norm_num),
    (P006.activation_ReLU_spec (3 : ℚ)).2.2.1 (by norm_num)⟩

/-- C9, refuted as stated: with `previous.output_size = 3` and `next.input_size = 2`
`forward` does not fail but returns the layer with output `[3]`; with
`previous.output_size = 1` and `next.input_size = 2` it reads `previous.output[1]`,
out of bounds, in p006 and in p004 alike. -/
theorem P006.forward_mismatch_counterexample :
    (P006.wideSource.output_size ≠ P006.narrowLayer.input_size ∧
      P006.forward P006.wideSource P006.narrowLayer
        = .ok { P006.narrowLayer with output := Ptr.ofList [3] }) ∧
    (P006.shortSource.output_size ≠ P006.narrowLayer.input_size ∧
      P006.forward P006.shortSource P006.narrowLayer = .error .outOfBounds) ∧
    (P004.shortSource.output_size ≠ P004.narrowLayer.input_size ∧
      P004.forward P004.shortSource P004.narrowLayer = .error .outOfBounds) := by
  refine ⟨⟨by decide, ?_⟩, ⟨by decide, rfl⟩, ⟨by decide, rfl⟩⟩
  simp [P006.forward, P006.layer_output, P006.dot_product, forLoop, loopFrom, Ptr.read,
    Ptr.write, Ptr.add, Ptr.ofList, P006.wideSource, P006.narrowLayer, bind, Except.bind,
    pure, Except.pure]
  norm_num

/-- C9, amended: `forward` makes no dimension check.  For a well-formed `next` it reads
`previous.output` out of bounds exactly when that vector has fewer than
`next.input_size` cells and `next.output_size` is at least one (p006 and p004); when
the vector has more than `next.input_size` cells `forward` succeeds and computes every
output from the first `next.input_size` cells. -/
theorem P006.forward_unchecked (previous next : P006.layer_dense_t α)
    (hp : 0 ≤ previous.output.off) (hnext : next.WellFormed) :
    (P006.forward previous next = .error .outOfBounds ↔
        (previous.output.cells.length : Int) < next.input_size ∧ 0 < next.output_size) ∧
    (next.input_size < (previous.output.cells.length : Int) →
      ∃ out, P006.forward previous next = .ok { next with output := out } ∧
        ∀ i : Nat, (i : Int) < next.output_size →
          out.cells.getD i 0
            = (next.callback.getD id)
                (Finset.sum (Finset.range next.input_size.toNat) (fun k =>
                  previous.output.cells.getD k 0
                    * next.weights.cells.getD (i * next.input_size.toNat + k) 0))
              + next.biases.cells.getD i 0) ∧
    (∀ previous₄ next₄ : P004.layer_dense_t α, 0 ≤ previous₄.output.off →
      next₄.toP006.WellFormed →
      (P004.forward previous₄ next₄ = .error .outOfBounds ↔
        (previous₄.output.cells.length : Int) < next₄.input_size ∧ 0 < next₄.output_size)) := by
  refine ⟨P006.forward_error_iff previous next hp hnext, ?_, ?_⟩
  · intro hlt
    obtain ⟨out, h1, -, -, h3⟩ := P006.forward_ok previous next hp hnext (Or.inl hlt.le)
    exact ⟨out, h1, h3⟩
  · intro p₄ n₄ hp₄ hn₄
    rw [P004.forward_fault_iff]
    exact P006.forward_error_iff p₄.toP006 n₄.toP006 hp₄ hn₄

/-- Witness for the amended C9: a one-cell output fed to a layer with two inputs faults,
a three-cell output succeeds. -/
theorem P006.forward_unchecked_witness :
    P006.forward P006.shortSource P006.narrowLayer = .error .outOfBounds ∧
      ∃ out, P006.forward P006.wideSource P006.narrowLayer
          = .ok { P006.narrowLayer with output := out } ∧
        ∀ i : Nat, (i : Int) < P006.narrowLayer.output_size →
          out.cells.getD i 0
            = (P006.narrowLayer.callback.getD id)
                (Finset.sum (Finset.range P006.narrowLayer.input_size.toNat) (fun k =>
                  P006.wideSource.output.cells.getD k 0
                    * P006.narrowLayer.weights.cells.getD
                        (i * P006.narrowLayer.input_size.toNat + k) 0))
              + P006.narrowLayer.biases.cells.getD i 0 :=
  ⟨(P006.forward_unchecked P006.shortSource P006.narrowLayer (by simp [P006.shortSource, Ptr.ofList])
      (by simp [P006.layer_dense_t.WellFormed, P006.narrowLayer, Ptr.cells, Ptr.ofList])).1.mpr
      (by simp [P006.shortSource, P006.narrowLayer, Ptr.cells, Ptr.ofList]),
    (P006.forward_unchecked P006.wideSource P006.narrowLayer (by simp [P006.wideSource, Ptr.ofList])
      (by simp [P006.layer_dense_t.WellFormed, P006.narrowLayer, Ptr.cells, Ptr.ofList])).2.1
      (by simp [P006.wideSource, P006.narrowLayer, Ptr.cells, Ptr.ofList])⟩

/-- C10, at a failing input: `rand_range` computes `min + r / (RAND_MAX / (max - min))`
for the raw sample `r`, and for the weight range `[-0.10, 0.10]` the raw sample `6` in
p006 gives `0.14` and the raw sample `11` in p004 gives `0.12`, both above `max`. -/
theorem P006.rand_range_exceeds_max :
    (∀ (rand : Unit → Int × Unit) (lo hi : ℚ),
      (P006.rand_range rand lo hi ()).1 = lo + ((rand ()).1 : ℚ) / ((P006.RAND_MAX : ℚ) / (hi - lo)) ∧
      (P004.rand_range rand lo hi ()).1
        = lo + ((rand ()).1 : ℚ) / ((P004.RAND_MAX : ℚ) / (hi - lo))) ∧
    (P006.rand_range (fun g : Unit => ((6 : Int), g)) (P006.RAND_MIN_RANGE : ℚ)
        P006.RAND_HIGH_RANGE ()).1 = 0.14 ∧
    (P006.RAND_HIGH_RANGE : ℚ) < (P006.rand_range (fun g : Unit => ((6 : Int), g))
        (P006.RAND_MIN_RANGE : ℚ) P006.RAND_HIGH_RANGE ()).1 ∧
    (P004.rand_range (fun g : Unit => ((11 : Int), g)) (P004.RAND_MIN_RANGE : ℚ)
        P004.RAND_HIGH_RANGE ()).1 = 0.12 ∧
    (P004.RAND_HIGH_RANGE : ℚ) < (P004.rand_range (fun g : Unit => ((11 : Int), g))
        (P004.RAND_MIN_RANGE : ℚ) P004.RAND_HIGH_RANGE ()).1 := by
  refine ⟨fun _ _ _ => ⟨rfl, rfl⟩, ?_, ?_, ?_, ?_⟩ <;>
    norm_num [P006.rand_range, P006.RAND_MIN_RANGE, P006.RAND_HIGH_RANGE, P006.RAND_MAX,
      P004.rand_range, P004.RAND_MIN_RANGE, P004.RAND_HIGH_RANGE, P004.RAND_MAX]

/-- C11: for positive sizes and successful allocations, `layer_init` (p006 and p004)
returns a layer that records the two sizes, has `output_size` biases all equal to
`0.0`, an output buffer of `output_size` cells, and exactly `input_size * output_size`
weights, the `k`-th being `rand_range(-0.10, 0.10)` computed from the `k`-th draw of
the generator; the layer is well formed and the generator has advanced by
`input_size * output_size` draws. -/
theorem P006.layer_init_spec {G : Type} (rand : G → Int × G) (fresh_w fresh_b fresh_o : Nat → α)
    (layer : P006.layer_dense_t α) (layer₄ : P004.layer_dense_t α)
    (intput_size output_size : Int) (g : G) (hi : 0 < intput_size) (ho : 0 < output_size) :
    (∃ l g', P006.layer_init rand (some fresh_w) (some fresh_b) (some fresh_o) layer
          intput_size output_size g = .ok (l, g') ∧
        l.input_size = intput_size ∧ l.output_size = output_size ∧
        l.callback = layer.callback ∧
        l.biases.cells = List.replicate output_size.toNat 0 ∧
        l.output.cells.length = output_size.toNat ∧
        l.weights.cells = (List.range (intput_size * output_size).toNat).map (fun k =>
          (P006.rand_range rand P006.RAND_MIN_RANGE P006.RAND_HIGH_RANGE
            (drawState rand g k)).1) ∧
        g' = drawState rand g (intput_size * output_size).toNat ∧ l.WellFormed) ∧
    (∃ l g', P004.layer_init rand (some fresh_w) (some fresh_b) (some fresh_o) layer₄
          intput_size output_size g = .ok (l, g') ∧
        l.input_size = intput_size ∧ l.output_size = output_size ∧
        l.biases.cells = List.replicate output_size.toNat 0 ∧
        l.output.cells.length = output_size.toNat ∧
        l.weights.cells = (List.range (intput_size * output_size).toNat).map (fun k =>
          (P004.rand_range rand P004.RAND_MIN_RANGE P004.RAND_HIGH_RANGE
            (drawState rand g k)).1) ∧
        g' = drawState rand g (intput_size * output_size).toNat ∧ l.toP006.WellFormed) := by
  lift intput_size to ℕ using hi.le with n
  lift output_size to ℕ using ho.le with m
  have hnm : ((n : Int) * (m : Int)).toNat = n * m := by
    rw [← Nat.cast_mul]
    exact Int.toNat_ofNat _
  constructor
  · refine ⟨_, _, P006.layer_init_ok rand fresh_w fresh_b fresh_o layer n m g, rfl, rfl, rfl,
      ?_, ?_, ?_, ?_, ?_⟩
    · simp [Ptr.cells_ofList, P006.INIT_BIASES, zero_literal]
    · simp [Ptr.cells_ofList]
    · simp only [Ptr.cells_ofList, hnm]
    · rw [hnm]
    · simp [P006.layer_dense_t.WellFormed, Ptr.cells, Ptr.ofList]
  · refine ⟨_, _, P004.layer_init_ok_p004 rand fresh_w fresh_b fresh_o layer₄ n m g, rfl, rfl,
      ?_, ?_, ?_, ?_, ?_⟩
    · simp [Ptr.cells_ofList, P004.INIT_BIASES, zero_literal]
    · simp [Ptr.cells_ofList]
    · simp only [Ptr.cells_ofList, hnm]
    · rw [hnm]
    · simp [P006.layer_dense_t.WellFormed, P004.layer_dense_t.toP006, Ptr.cells, Ptr.ofList]

/-- Witness for C11: a layer with two inputs and three neurons over the rationals, built
with a generator that counts its draws. -/
theorem P006.layer_init_spec_witness :
    ∃ l g', P006.layer_init (fun g : Nat => ((g % 6 : Nat), g + 1)) (some (fun _ => 7))
          (some (fun _ => 8)) (some (fun _ => 9)) P006.narrowLayer 2 3 0 = .ok (l, g') ∧
        l.input_size = 2 ∧ l.output_size = 3 ∧
        l.callback = P006.narrowLayer.callback ∧
        l.biases.cells = List.replicate 3 0 ∧
        l.output.cells.length = 3 ∧
        l.weights.cells = (List.range 6).map (fun k =>
          (P006.rand_range (fun g : Nat => ((g % 6 : Nat), g + 1)) P006.RAND_MIN_RANGE
            P006.RAND_HIGH_RANGE (drawState (fun g : Nat => ((g % 6 : Nat), g + 1)) 0 k)).1) ∧
        g' = drawState (fun g : Nat => ((g % 6 : Nat), g + 1)) 0 6 ∧ l.WellFormed :=
  (P006.layer_init_spec (fun g : Nat => ((g % 6 : Nat), g + 1)) (fun _ => (7 : ℚ)) (fun _ => 8)
    (fun _ => 9) P006.narrowLayer P004.narrowLayer 2 3 0 (by decide) (by decide)).1

/-- C13, at a failing input: for the raw sample `5 = RAND_MAX`,
`uniform_distribution(-1.0, 1.0)` returns `1.5`, above `rangeHigh = 1`, and the
perturbation `0.2` times that value is `0.3`, above `0.2`; in general the function
returns `r / (1 + RAND_MAX) * (rangeHigh - rangeLow + 1) + rangeLow`. -/
theorem P006.uniform_distribution_exceeds_high :
    (∀ (rand : Unit → Int × Unit) (lo hi : ℚ),
      (P006.uniform_distribution rand lo hi ()).1
        = ((rand ()).1 : ℚ) / (1 + (P006.RAND_MAX : ℚ)) * (hi - lo + 1) + lo) ∧
    (5 : Int) ≤ P006.RAND_MAX ∧
    (P006.uniform_distribution (fun g : Unit => ((5 : Int), g)) (-1.0) (1.0 : ℚ) ()).1 = 1.5 ∧
    (1.0 : ℚ) < (P006.uniform_distribution (fun g : Unit => ((5 : Int), g)) (-1.0)
        (1.0 : ℚ) ()).1 ∧
    (0.2 : ℚ) < (P006.uniform_distribution (fun g : Unit => ((5 : Int), g)) (-1.0)
        (1.0 : ℚ) ()).1 * 0.2 := by
  refine ⟨fun _ _ _ => ?_, by decide, ?_, ?_, ?_⟩ <;>
    norm_num [P006.uniform_distribution, P006.RAND_MAX]

/-- C14: determinism of construction.  Two runs of `layer_init` (p004 and p006) from
the same generator state with the same non-negative sizes, whatever the fresh memory
and the struct held before each run, return the same weights and the same biases and
leave the generator in the same state. -/
theorem P004.layer_init_deterministic {G : Type} (rand : G → Int × G)
    (fw fb fo fw' fb' fo' : Nat → α) (layer layer' : P004.layer_dense_t α)
    (layer₆ layer₆' : P006.layer_dense_t α) (intput_size output_size : Int) (g : G)
    (hi : 0 ≤ intput_size) (ho : 0 ≤ output_size) :
    (∃ l l' g', P004.layer_init rand (some fw) (some fb) (some fo) layer
          intput_size output_size g = .ok (l, g') ∧
        P004.layer_init rand (some fw') (some fb') (some fo') layer'
          intput_size output_size g = .ok (l', g') ∧
        l.weights = l'.weights ∧ l.biases = l'.biases ∧
        l.input_size = l'.input_size ∧ l.output_size = l'.output_size) ∧
    (∃ l l' g', P006.layer_init rand (some fw) (some fb) (some fo) layer₆
          intput_size output_size g = .ok (l, g') ∧
        P006.layer_init rand (some fw') (some fb') (some fo') layer₆'
          intput_size output_size g = .ok (l', g') ∧
        l.weights = l'.weights ∧ l.biases = l'.biases ∧
        l.input_size = l'.input_size ∧ l.output_size = l'.output_size) := by
  lift intput_size to ℕ using hi with n
  lift output_size to ℕ using ho with m
  exact ⟨⟨_, _, _, P004.layer_init_ok_p004 rand fw fb fo layer n m g,
      P004.layer_init_ok_p004 rand fw' fb' fo' layer' n m g, rfl, rfl, rfl, rfl⟩,
    ⟨_, _, _, P006.layer_init_ok rand fw fb fo layer₆ n m g,
      P006.layer_init_ok rand fw' fb' fo' layer₆' n m g, rfl, rfl, rfl, rfl⟩⟩

/-- Witness for C14: the first layer of p004 `main`, four inputs and five neurons, built
twice from generator state `0` over different fresh memory. -/
theorem P004.layer_init_deterministic_witness :
    ∃ l l' g', P004.layer_init (fun g : Nat => ((g % 11 : Nat), g + 1)) (some (fun _ => 7))
          (some (fun _ => 8)) (some (fun _ => 9)) P004.narrowLayer 4 5 0 = .ok (l, g') ∧
        P004.layer_init (fun g : Nat => ((g % 11 : Nat), g + 1)) (some (fun _ => 1))
          (some (fun _ => 2)) (some (fun _ => 3)) P004.shortSource 4 5 0 = .ok (l', g') ∧
        l.weights = l'.weights ∧ l.biases = l'.biases ∧
        l.input_size = l'.input_size ∧ l.output_size = l'.output_size :=
  (P004.layer_init_deterministic (fun g : Nat => ((g % 11 : Nat), g + 1)) (fun _ => (7 : ℚ))
    (fun _ => 8) (fun _ => 9) (fun _ => 1) (fun _ => 2) (fun _ => 3) P004.narrowLayer
    P004.shortSource P006.narrowLayer P006.shortSource 4 5 0 (by decide) (by decide)).1

/-- C15: `forward` fully overwrites `next.output`: run on `next` and on `next` with any
other prior contents `prior` of the output buffer, it leaves the same output vector.
Consequently one iteration of the batch loop of `main`, run after any earlier rows
(prior output contents `prior₁`, `prior₂` and pseudo-layer `X'`), prints the same three
vectors, which are functions of the row, the weights and the biases alone; the same
holds for the two vectors printed by an iteration of the batch loop of p004. -/
theorem P006.forward_overwrites_output (exp : α → α) (previous next : P006.layer_dense_t α)
    (prior : Ptr α) (X_data : P006.spiral_data_t α) (i : Int)
    (X X' dense1 dense2 : P006.layer_dense_t α) (prior₁ prior₂ : Ptr α)
    (hp : 0 ≤ previous.output.off) (hnext : next.WellFormed)
    (hx : (previous.output.cells.length : Int) = next.input_size)
    (hprior : 0 ≤ prior.off ∧ prior.cells.length = next.output.cells.length)
    (hrow : 0 ≤ (X_data.x.add (i * 2)).off)
    (hin : dense1.input_size ≤ ((X_data.x.add (i * 2)).cells.length : Int))
    (h1 : dense1.WellFormed) (h2 : dense2.WellFormed)
    (hchain : dense2.input_size = dense1.output_size) (hpos : 0 < dense2.output_size)
    (hprior₁ : 0 ≤ prior₁.off ∧ prior₁.cells.length = dense1.output.cells.length)
    (hprior₂ : 0 ≤ prior₂.off ∧ prior₂.cells.length = dense2.output.cells.length) :
    (∃ out₁ out₂, P006.forward previous next = .ok { next with output := out₁ } ∧
      P006.forward previous { next with output := prior }
        = .ok { next with output := out₂ } ∧
      out₁.cells = out₂.cells) ∧
    (∃ r r' m,
      P006.main_batch exp X_data i X dense1 dense2
        = .ok (r, [rowLayer1 (X_data.x.add (i * 2)).cells dense1,
                   rowLayer2 (X_data.x.add (i * 2)).cells dense1 dense2,
                   softmaxWith exp m (rowLayer2 (X_data.x.add (i * 2)).cells dense1 dense2)]) ∧
      P006.main_batch exp X_data i X' { dense1 with output := prior₁ }
          { dense2 with output := prior₂ }
        = .ok (r', [rowLayer1 (X_data.x.add (i * 2)).cells dense1,
                    rowLayer2 (X_data.x.add (i * 2)).cells dense1 dense2,
                    softmaxWith exp m
                      (rowLayer2 (X_data.x.add (i * 2)).cells dense1 dense2)])) ∧
    (∀ (X_input : Ptr α) (i₄ : Int) (X₄ X₄' layer1 layer2 : P004.layer_dense_t α)
        (prior₃ prior₄ : Ptr α),
      0 ≤ (X_input.add (i₄ * P004.NET_INPUT_LAYER_1_SIZE)).off →
      layer1.input_size
        ≤ ((X_input.add (i₄ * P004.NET_INPUT_LAYER_1_SIZE)).cells.length : Int) →
      layer1.toP006.WellFormed → layer2.toP006.WellFormed →
      layer2.input_size = layer1.output_size →
      (0 ≤ prior₃.off ∧ prior₃.cells.length = layer1.output.cells.length) →
      (0 ≤ prior₄.off ∧ prior₄.cells.length = layer2.output.cells.length) →
      ∃ r r' printed,
        P004.main_batch X_input i₄ X₄ layer1 layer2 = .ok (r, printed) ∧
        P004.main_batch X_input i₄ X₄' { layer1 with output := prior₃ }
          { layer2 with output := prior₄ } = .ok (r', printed)) := by
  have wf : ∀ (d : P006.layer_dense_t α) (q : Ptr α), d.WellFormed →
      0 ≤ q.off ∧ q.cells.length = d.output.cells.length →
      ({ d with output := q } : P006.layer_dense_t α).WellFormed := by
    rintro d q ⟨a1, a2, -, a4, a5, a6⟩ ⟨b1, b2⟩
    exact ⟨a1, a2, b1, a4, a5, by show (q.cells.length : Int) = d.output_size; omega⟩
  constructor
  · obtain ⟨out₁, hf1, -, hc1⟩ := P006.forward_cells previous next hp hnext (Or.inl hx.ge)
    obtain ⟨out₂, hf2, -, hc2⟩ := P006.forward_cells previous { next with output := prior } hp
      (wf next prior hnext hprior) (Or.inl hx.ge)
    exact ⟨out₁, out₂, hf1, hf2, hc1.trans hc2.symm⟩
  · obtain ⟨o₁, o₃, m, hm, hle, hrun, -⟩ := P006.main_batch_ok exp X_data i X dense1 dense2
      hrow hin h1 h2 hchain hpos
    obtain ⟨o₁', o₃', m', hm', hle', hrun', -⟩ := P006.main_batch_ok exp X_data i X'
      { dense1 with output := prior₁ } { dense2 with output := prior₂ }
      hrow hin (wf dense1 prior₁ h1 hprior₁) (wf dense2 prior₂ h2 hprior₂) hchain hpos
    have hmm : m' = m := max_unique _ m' m hm' hle' hm hle
    rw [hmm] at hrun'
    refine ⟨⟨_, _, m, hrun, hrun'⟩, ?_⟩
    intro X_input i₄ X₄ X₄' layer1 layer2 prior₃ prior₄ hrow₄ hin₄ hl1 hl2 hchain₄ hp₃ hp₄
    obtain ⟨r, hr⟩ := P004.main_batch_ok_p004 X_input i₄ X₄ layer1 layer2 hrow₄ hin₄ hl1 hl2 hchain₄
    obtain ⟨r', hr'⟩ := P004.main_batch_ok_p004 X_input i₄ X₄' { layer1 with output := prior₃ }
      { layer2 with output := prior₄ } hrow₄ hin₄
      (wf layer1.toP006 prior₃ hl1 hp₃) (wf layer2.toP006 prior₄ hl2 hp₄) hchain₄
    exact ⟨r, r', _, hr, hr'⟩

/-- Witness for C15: the row `[1, -1]` fed through two small layers over the rationals,
with other prior contents in every output buffer. -/
theorem P006.forward_overwrites_output_witness :
    (∃ out₁ out₂, P006.forward P006.rowSource P006.narrowLayer
        = .ok { P006.narrowLayer with output := out₁ } ∧
      P006.forward P006.rowSource { P006.narrowLayer with output := Ptr.ofList [5] }
        = .ok { P006.narrowLayer with output := out₂ } ∧
      out₁.cells = out₂.cells) ∧
    (∃ r r' m,
      P006.main_batch id ⟨⟨[9, 9, 1, -1], 0⟩, Ptr.nil⟩ 1 P006.rowSource P006.narrowLayer
          P006.unitLayer
        = .ok (r, [rowLayer1 [1, -1] P006.narrowLayer,
                   rowLayer2 [1, -1] P006.narrowLayer P006.unitLayer,
                   softmaxWith id m (rowLayer2 [1, -1] P006.narrowLayer P006.unitLayer)]) ∧
      P006.main_batch id ⟨⟨[9, 9, 1, -1], 0⟩, Ptr.nil⟩ 1 P006.wideSource
          { P006.narrowLayer with output := Ptr.ofList [5] }
          { P006.unitLayer with output := Ptr.ofList [6] }
        = .ok (r', [rowLayer1 [1, -1] P006.narrowLayer,
                    rowLayer2 [1, -1] P006.narrowLayer P006.unitLayer,
                    softmaxWith id m (rowLayer2 [1, -1] P006.narrowLayer P006.unitLayer)])) := by
  have h := P006.forward_overwrites_output id P006.rowSource P006.narrowLayer (Ptr.ofList [5])
    ⟨⟨[9, 9, 1, -1], 0⟩, Ptr.nil⟩ 1 P006.rowSource P006.wideSource P006.narrowLayer
    P006.unitLayer (Ptr.ofList [5]) (Ptr.ofList [6])
    (by simp [P006.rowSource])
    (by simp [P006.layer_dense_t.WellFormed, P006.narrowLayer, Ptr.cells, Ptr.ofList])
    (by simp [P006.rowSource, P006.narrowLayer, Ptr.cells])
    (by simp [P006.narrowLayer, Ptr.cells, Ptr.ofList])
    (by simp [Ptr.add])
    (by simp [P006.narrowLayer, Ptr.cells, Ptr.add])
    (by simp [P006.layer_dense_t.WellFormed, P006.narrowLayer, Ptr.cells, Ptr.ofList])
    (by simp [P006.layer_dense_t.WellFormed, P006.unitLayer, Ptr.cells, Ptr.ofList])
    (by simp [P006.narrowLayer, P006.unitLayer])
    (by simp [P006.unitLayer])
    (by simp [P006.narrowLayer, Ptr.cells, Ptr.ofList])
    (by simp [P006.unitLayer, Ptr.cells, Ptr.ofList])
  exact ⟨h.1, h.2.1⟩

/-- C16: `forward` and `activation_softmax` change only the output buffer of their target
layer.  Whenever either returns, the weights, biases, sizes and callback of the layer
it returns are those of the layer it was given; on a well-formed layer (and, for
`forward`, a previous output of `input_size` cells) both succeed and the layer they
return is well formed again.  The previous layer is an argument that is only read. -/
theorem P006.forward_softmax_frame (exp : α → α) (previous next l : P006.layer_dense_t α)
    (hp : 0 ≤ previous.output.off) (hnext : next.WellFormed)
    (hx : (previous.output.cells.length : Int) = next.input_size)
    (hl : l.WellFormed) (hne : l.output.cells ≠ []) :
    (∃ r, P006.forward previous next = .ok r ∧ r.weights = next.weights ∧
      r.biases = next.biases ∧ r.input_size = next.input_size ∧
      r.output_size = next.output_size ∧ r.callback = next.callback ∧ r.WellFormed) ∧
    (∃ r, P006.activation_softmax exp l = .ok r ∧ r.weights = l.weights ∧
      r.biases = l.biases ∧ r.input_size = l.input_size ∧
      r.output_size = l.output_size ∧ r.callback = l.callback ∧ r.WellFormed) ∧
    (∀ p n r : P006.layer_dense_t α, P006.forward p n = .ok r →
      r.weights = n.weights ∧ r.biases = n.biases ∧ r.input_size = n.input_size ∧
      r.output_size = n.output_size ∧ r.callback = n.callback) ∧
    (∀ n r : P006.layer_dense_t α, P006.activation_softmax exp n = .ok r →
      r.weights = n.weights ∧ r.biases = n.biases ∧ r.input_size = n.input_size ∧
      r.output_size = n.output_size ∧ r.callback = n.callback) := by
  refine ⟨?_, ?_, fun p n r h => P006.forward_frame p n r h,
    fun n r h => P006.activation_softmax_frame exp n r h⟩
  · obtain ⟨out, hf, hoff, hlen, -⟩ := P006.forward_ok previous next hp hnext (Or.inl hx.ge)
    obtain ⟨a1, a2, a3, a4, a5, a6⟩ := hnext
    exact ⟨_, hf, rfl, rfl, rfl, rfl, rfl, a1, a2, by show 0 ≤ out.off; omega, a4, a5, hlen⟩
  · obtain ⟨a1, a2, a3, a4, a5, a6⟩ := hl
    obtain ⟨m, out, -, -, hrun, hoff, hcells⟩ := P006.activation_softmax_ok exp l a3 a6 hne
    refine ⟨_, hrun, rfl, rfl, rfl, rfl, rfl, a1, a2, by show 0 ≤ out.off; omega, a4, a5, ?_⟩
    show (out.cells.length : Int) = l.output_size
    rw [hcells, softmaxWith, List.length_map]
    exact a6

/-- Witness for C16: the row `[1, -1]` fed to a small layer, and the softmax of that
layer, over the rationals. -/
theorem P006.forward_softmax_frame_witness :
    ∃ r, P006.forward P006.rowSource P006.narrowLayer = .ok r ∧
      r.weights = P006.narrowLayer.weights ∧ r.biases = P006.narrowLayer.biases ∧
      r.input_size = P006.narrowLayer.input_size ∧
      r.output_size = P006.narrowLayer.output_size ∧
      r.callback = P006.narrowLayer.callback ∧ r.WellFormed :=
  (P006.forward_softmax_frame id P006.rowSource P006.narrowLayer P006.narrowLayer
    (by simp [P006.rowSource])
    (by simp [P006.layer_dense_t.WellFormed, P006.narrowLayer, Ptr.cells, Ptr.ofList])
    (by simp [P006.rowSource, P006.narrowLayer, Ptr.cells])
    (by simp [P006.layer_dense_t.WellFormed, P006.narrowLayer, Ptr.cells, Ptr.ofList])
    (by simp [P006.narrowLayer, Ptr.cells, Ptr.ofList])).1

/-- C18: on a non-empty real output vector, with `m` the maximum found by the first
loop, the second loop of `activation_softmax` accumulates a sum `s` that is at least
`1`; so the third loop never divides by zero, and every resulting output lies in
`(0, 1]`. -/
theorem P006.softmax_sum_at_least_one (l : P006.layer_dense_t ℝ) (hp : 0 ≤ l.output.off)
    (hlen : (l.output.cells.length : Int) = l.output_size) (hne : l.output.cells ≠ []) :
    ∃ m o₂ s out, m ∈ l.output.cells ∧ (∀ y ∈ l.output.cells, y ≤ m) ∧
      forLoop 0 l.output_size (fun i (st : Ptr ℝ × ℝ) => do
          let v ← st.1.read i
          let o ← st.1.write i (Real.exp (v - m))
          let e ← o.read i
          pure (o, st.2 + e)) (l.output, (0.0 : ℝ)) = .ok (o₂, s) ∧
      1 ≤ s ∧ s ≠ 0 ∧
      P006.activation_softmax Real.exp l = .ok { l with output := out } ∧
      out.cells = l.output.cells.map (fun v => Real.exp (v - m) / s) ∧
      ∀ y ∈ out.cells, 0 < y ∧ y ≤ 1 := by
  obtain ⟨m, out, hm, hle, hrun, -, hcells⟩ := P006.activation_softmax_ok Real.exp l hp hlen hne
  obtain ⟨o₂, h2, -, -⟩ :=
    softmax_exp_loop (fun v => Real.exp (v - m)) l.output hp l.output.cells.length rfl
  have hs := one_le_exp_sum l.output.cells m hm
  refine ⟨m, o₂, _, out, hm, hle, ?_, hs, by linarith, hrun, hcells, ?_⟩
  · rw [← hlen]
    exact h2
  · intro y hy
    rw [hcells] at hy
    exact softmaxWith_mem_unit l.output.cells m hm y hy

/-- Witness for C18: the output vector `[1, 3, 2]`. -/
theorem P006.softmax_sum_at_least_one_witness :
    ∃ m o₂ s out, m ∈ ([1, 3, 2] : List ℝ) ∧ (∀ y ∈ ([1, 3, 2] : List ℝ), y ≤ m) ∧
      forLoop 0 3 (fun i (st : Ptr ℝ × ℝ) => do
          let v ← st.1.read i
          let o ← st.1.write i (Real.exp (v - m))
          let e ← o.read i
          pure (o, st.2 + e)) (Ptr.ofList [1, 3, 2], (0.0 : ℝ)) = .ok (o₂, s) ∧
      1 ≤ s ∧ s ≠ 0 ∧
      P006.activation_softmax Real.exp
        { weights := Ptr.ofList [], biases := Ptr.ofList [], output := Ptr.ofList [1, 3, 2],
          input_size := 0, output_size := 3, callback := none }
        = .ok { weights := Ptr.ofList [], biases := Ptr.ofList [], output := out,
                input_size := 0, output_size := 3, callback := none } ∧
      out.cells = ([1, 3, 2] : List ℝ).map (fun v => Real.exp (v - m) / s) ∧
      ∀ y ∈ out.cells, 0 < y ∧ y ≤ 1 :=
  P006.softmax_sum_at_least_one
    { weights := Ptr.ofList [], biases := Ptr.ofList [], output := Ptr.ofList [1, 3, 2],
      input_size := 0, output_size := 3, callback := none }
    le_rfl (by simp [Ptr.cells, Ptr.ofList]) (by simp [Ptr.cells, Ptr.ofList])

/-- C20: on a non-empty real vector `x` the max-subtracting softmax computed by
`activation_softmax` is the textbook softmax: every `output[i]` ends as `exp (x[i])`
divided by the sum over `j` of `exp (x[j])`. -/
theorem P006.softmax_refines_textbook (l : P006.layer_dense_t ℝ) (hp : 0 ≤ l.output.off)
    (hlen : (l.output.cells.length : Int) = l.output_size) (hne : l.output.cells ≠ []) :
    ∃ out, P006.activation_softmax Real.exp l = .ok { l with output := out } ∧
      out.cells = textbookSoftmax Real.exp l.output.cells ∧
      ∀ i : Nat, i < l.output.cells.length →
        out.cells.getD i 0
          = Real.exp (l.output.cells.getD i 0)
            / Finset.sum (Finset.range l.output.cells.length)
                (fun j => Real.exp (l.output.cells.getD j 0)) := by
  obtain ⟨m, out, -, -, hrun, -, hcells⟩ := P006.activation_softmax_ok Real.exp l hp hlen hne
  have htb : out.cells = textbookSoftmax Real.exp l.output.cells := by
    rw [hcells, softmaxWith_eq_textbook]
  refine ⟨out, hrun, htb, ?_⟩
  intro i hi
  rw [htb, textbookSoftmax, getD_map_of_lt _ _ i hi, sum_map_eq_range]

/-- Witness for C20: the output vector `[1, 3, 2]`. -/
theorem P006.softmax_refines_textbook_witness :
    ∃ out, P006.activation_softmax Real.exp
        { weights := Ptr.ofList [], biases := Ptr.ofList [], output := Ptr.ofList [1, 3, 2],
          input_size := 0, output_size := 3, callback := none }
        = .ok { weights := Ptr.ofList [], biases := Ptr.ofList [], output := out,
                input_size := 0, output_size := 3, callback := none } ∧
      out.cells = textbookSoftmax Real.exp [1, 3, 2] ∧
      ∀ i : Nat, i < 3 →
        out.cells.getD i 0
          = Real.exp (([1, 3, 2] : List ℝ).getD i 0)
            / Finset.sum (Finset.range 3) (fun j => Real.exp (([1, 3, 2] : List ℝ).getD j 0)) :=
  P006.softmax_refines_textbook
    { weights := Ptr.ofList [], biases := Ptr.ofList [], output := Ptr.ofList [1, 3, 2],
      input_size := 0, output_size := 3, callback := none }
    le_rfl (by simp [Ptr.cells, Ptr.ofList]) (by simp [Ptr.cells, Ptr.ofList])

end Claims

end NNfSiX
